import Mathlib

/-!
Verification development for the qoqo-iqm circuit translation, validation and
result-reassembly pipeline (`roqoqo-iqm`).

The Rust sources are shallowly embedded:

* `interface.rs` — `call_operation`, `call_circuit` and the
  `MeasuredQubitsMap` bookkeeping;
* `devices/deneb_device.rs` — the Deneb device with its connectivity check and
  the Load/Store finite-state validation;
* `backend.rs` — `Backend::validate_circuit`, `Backend::validate_circuit_batch`,
  `get_measured_qubits_map` and `results_to_registers`.

Rust `HashMap`s are modelled as association lists with insert-overwrite
semantics (`alInsert`); the code never depends on hash iteration order in an
observable way (the one sorted iteration, over a `PragmaRepeatedMeasurement`
qubit mapping, is modelled by an explicit sort).  Rust `panic!`/index-out-of-
bounds aborts are modelled as the distinguished error `IqmBackendError.Panic`.
Physical-qubit labels, rendered by the source as the strings `"QB<n>"` and
`"COMP_R"`, are kept in structured form (the rendering is injective and labels
are only ever compared for equality).  Floating-point angle parameters carry
their rational radian value under a constructor that records the source's
radians-to-turns conversion; no verified property depends on a numeric angle.
-/

namespace RoqoqoIqm

/-- Model of `qoqo_calculator::CalculatorFloat`: either a concrete float
(modelled as a rational) or a symbolic string expression. -/
inductive CalculatorFloat where
  | Float (f : ℚ)
  | Str (s : String)
deriving DecidableEq, Repr

/-- Model of `CalculatorFloat::float()`: succeeds only on a concrete value. -/
def CalculatorFloat.float : CalculatorFloat → Except String ℚ
  | .Float f => .ok f
  | .Str s => .error s

/-- Physical-qubit labels of the IQM wire format.  The source renders
`QB n` as the string `"QB<n>"` (1-based) and `COMP_R` as `"COMP_R"`; the
rendering is injective and labels are only compared for equality, so the
structured form is kept. -/
inductive IqmQubitName where
  | QB (n : Nat)
  | COMP_R
deriving DecidableEq, Repr

/-- Values of the `args` map of an `IqmInstruction`.  In the source these are
`CalculatorFloat`s; angle entries are stored divided by 2π ("turns").  Here
`turns r` records the original radian value `r` under a constructor naming
that conversion, and `str` holds register names (the `"key"` entries). -/
inductive IqmArg where
  | turns (radians : ℚ)
  | str (s : String)
deriving DecidableEq, Repr

/-- Model of `IqmInstruction` (interface.rs): a vendor instruction. -/
structure IqmInstruction where
  name : String
  qubits : List IqmQubitName
  args : List (String × IqmArg)
deriving DecidableEq, Repr

/-- Model of `MeasuredQubitsMap`: register name ↦ (measured indices, declared
register length). -/
abbrev MeasuredQubitsMap := List (String × (List Nat × Nat))

/-- Model of `IqmCircuit` (interface.rs). -/
structure IqmCircuit where
  name : String
  instructions : List IqmInstruction
  metadata : Option MeasuredQubitsMap
deriving DecidableEq, Repr

/-- The roqoqo operations handled by the pipeline.  Gate and measurement
operations carry exactly the fields the Rust code reads.  The trailing
constructors are the no-op pragmas of `ALLOWED_OPERATIONS` plus `Hadamard`
as a representative gate that is not supported by the backend. -/
inductive Operation where
  | DefinitionBit (name : String) (length : Nat) (is_output : Bool)
  | MeasureQubit (qubit : Nat) (readout : String) (readout_index : Nat)
  | PragmaSetNumberOfMeasurements (number_measurements : Nat) (readout : String)
  | PragmaRepeatedMeasurement (readout : String) (number_measurements : Nat)
      (qubit_mapping : Option (List (Nat × Nat)))
  | PragmaLoop (repetitions : CalculatorFloat) (circuit : List Operation)
  | RotateXY (qubit : Nat) (theta : CalculatorFloat) (phi : CalculatorFloat)
  | ControlledPauliZ (control : Nat) (target : Nat)
  | CZQubitResonator (qubit : Nat) (mode : Nat)
  | SingleExcitationLoad (qubit : Nat) (mode : Nat)
  | SingleExcitationStore (qubit : Nat) (mode : Nat)
  | InputBit (name : String) (index : Nat) (value : Bool)
  | PragmaBoostNoise
  | PragmaStopParallelBlock
  | PragmaGlobalPhase
  | InputSymbolic
  | PragmaStartDecompositionBlock
  | PragmaStopDecompositionBlock
  | Hadamard (qubit : Nat)

/-- The roqoqo `hqslang` name of each operation. -/
def Operation.hqslang : Operation → String
  | .DefinitionBit _ _ _ => "DefinitionBit"
  | .MeasureQubit _ _ _ => "MeasureQubit"
  | .PragmaSetNumberOfMeasurements _ _ => "PragmaSetNumberOfMeasurements"
  | .PragmaRepeatedMeasurement _ _ _ => "PragmaRepeatedMeasurement"
  | .PragmaLoop _ _ => "PragmaLoop"
  | .RotateXY _ _ _ => "RotateXY"
  | .ControlledPauliZ _ _ => "ControlledPauliZ"
  | .CZQubitResonator _ _ => "CZQubitResonator"
  | .SingleExcitationLoad _ _ => "SingleExcitationLoad"
  | .SingleExcitationStore _ _ => "SingleExcitationStore"
  | .InputBit _ _ _ => "InputBit"
  | .PragmaBoostNoise => "PragmaBoostNoise"
  | .PragmaStopParallelBlock => "PragmaStopParallelBlock"
  | .PragmaGlobalPhase => "PragmaGlobalPhase"
  | .InputSymbolic => "InputSymbolic"
  | .PragmaStartDecompositionBlock => "PragmaStartDecompositionBlock"
  | .PragmaStopDecompositionBlock => "PragmaStopDecompositionBlock"
  | .Hadamard _ => "Hadamard"

/-- Model of `roqoqo::RoqoqoBackendError` (the variants this code produces). -/
inductive RoqoqoBackendError where
  | OperationNotInBackend (backend : String) (hqslang : String)
  | CalculatorError (msg : String)
deriving DecidableEq, Repr

/-- Model of `IqmBackendError` (lib.rs), restricted to the locally producible
variants.  `Panic` stands for a Rust `panic!`/out-of-bounds abort, which is
not an `IqmBackendError` in the source but likewise escapes the function. -/
inductive IqmBackendError where
  | EmptyResult (id : String)
  | EmptyCircuit
  | RegisterTooSmall (name : String)
  | InvalidCircuit (msg : String)
  | MetadataError (msg : String)
  | InvalidResults (msg : String)
  | RoqoqoBackendError (e : RoqoqoBackendError)
  | Panic (msg : String)
deriving DecidableEq, Repr

/-- Association-list lookup, modelling `HashMap::get`. -/
def alGet {α : Type} (m : List (String × α)) (k : String) : Option α :=
  (m.find? (fun p => p.1 == k)).map (fun p => p.2)

/-- Association-list insert-or-overwrite, modelling `HashMap::insert`. -/
def alInsert {α : Type} (m : List (String × α)) (k : String) (v : α) :
    List (String × α) :=
  match m with
  | [] => [(k, v)]
  | p :: rest => if p.1 == k then (k, v) :: rest else p :: alInsert rest k v

/-- Association-list in-place update of an existing entry, modelling a write
through `HashMap::get_mut`.  Absent keys are left untouched (the call sites
look the key up first). -/
def alUpdate {α : Type} (m : List (String × α)) (k : String) (f : α → α) :
    List (String × α) :=
  match m with
  | [] => []
  | p :: rest => if p.1 == k then (p.1, f p.2) :: rest else p :: alUpdate rest k f

/-- Model of `ALLOWED_OPERATIONS` (interface.rs): pragmas the backend drops
silently. -/
def ALLOWED_OPERATIONS : List String :=
  ["PragmaBoostNoise", "PragmaStopParallelBlock", "PragmaGlobalPhase",
   "InputSymbolic", "InputBit", "PragmaRepeatedMeasurement",
   "PragmaStartDecompositionBlock", "PragmaStopDecompositionBlock"]

/-- Model of `_convert_qubit_name_qoqo_to_iqm`: qoqo qubit `q` becomes label
`QB (q+1)` (rendered `"QB<q+1>"` on the wire). -/
def _convert_qubit_name_qoqo_to_iqm (qoqo_qubit : Nat) : IqmQubitName :=
  .QB (qoqo_qubit + 1)

/-- Model of `_convert_resonator_name_qoqo_to_iqm`: every resonator index maps
to the single shared label `COMP_R`. -/
def _convert_resonator_name_qoqo_to_iqm (_resonator_index : Nat) : IqmQubitName :=
  .COMP_R

/-- Model of `_convert_all_qubit_names`: the labels `QB 1 … QB n`. -/
def _convert_all_qubit_names (number_qubits : Nat) : List IqmQubitName :=
  (List.range number_qubits).map (fun i => .QB (i + 1))

/-- Model of `call_operation` (interface.rs): translate one operation to at
most one vendor instruction.  Angle parameters are divided by 2π in the
source; `IqmArg.turns` records that conversion (see its docstring). -/
def call_operation : Operation → Except RoqoqoBackendError (Option IqmInstruction)
  | .RotateXY qubit theta phi => do
      let t ← theta.float.mapError .CalculatorError
      let p ← phi.float.mapError .CalculatorError
      .ok (some { name := "prx"
                , qubits := [_convert_qubit_name_qoqo_to_iqm qubit]
                , args := [("angle_t", .turns t), ("phase_t", .turns p)] })
  | .ControlledPauliZ control target =>
      .ok (some { name := "cz"
                , qubits := [_convert_qubit_name_qoqo_to_iqm control,
                             _convert_qubit_name_qoqo_to_iqm target]
                , args := [] })
  | .CZQubitResonator qubit mode =>
      .ok (some { name := "cz"
                , qubits := [_convert_qubit_name_qoqo_to_iqm qubit,
                             _convert_resonator_name_qoqo_to_iqm mode]
                , args := [] })
  | .SingleExcitationLoad qubit mode =>
      .ok (some { name := "move"
                , qubits := [_convert_qubit_name_qoqo_to_iqm qubit,
                             _convert_resonator_name_qoqo_to_iqm mode]
                , args := [] })
  | .SingleExcitationStore qubit mode =>
      .ok (some { name := "move"
                , qubits := [_convert_qubit_name_qoqo_to_iqm qubit,
                             _convert_resonator_name_qoqo_to_iqm mode]
                , args := [] })
  | op =>
      if ALLOWED_OPERATIONS.contains op.hqslang then .ok none
      else .error (.OperationNotInBackend "IQM" op.hqslang)

/-- Rust `f64 as i32`: truncation toward zero, saturating at the i32 bounds.
`q.num.tdiv q.den` is truncated division of the reduced fraction. -/
def rust_f64_as_i32 (q : ℚ) : Int :=
  max (-2147483648) (min (q.num.tdiv (q.den : Int)) 2147483647)

/-- Translator state threaded through `call_circuit`'s loop over operations:
the emitted instructions, the current shot count, the qubits measured by
individual `MeasureQubit` operations (in call order), and the register map. -/
structure CCState where
  circuit_vec : List IqmInstruction
  number_measurements : Nat
  measured_qubits : List Nat
  measured_qubits_map : MeasuredQubitsMap
deriving Repr

/-- Initial state of `call_circuit`. -/
def initCCState : CCState :=
  { circuit_vec := [], number_measurements := 1, measured_qubits := []
  , measured_qubits_map := [] }

/-- The scan of `call_circuit`'s `MeasureQubit` arm over the already-emitted
instructions: find the first instruction named `"measure"` whose `"key"`
argument is the string `readout`, and append the measured qubit's label to
its qubit list.  Returns `some` of the updated instruction list when such an
instruction was found, `none` when not, an `InvalidCircuit` error when the
label is already present ("measured twice"), and `Panic` when a
`"measure"`-named instruction has no `"key"` entry (the source `expect`s it). -/
def find_measure_update (l : List IqmInstruction) (readout : String) (qubit : Nat) :
    Except IqmBackendError (Option (List IqmInstruction)) :=
  match l with
  | [] => .ok none
  | instr :: rest =>
    if instr.name == "measure" then
      match alGet instr.args "key" with
      | none => .error (.Panic
          "An IqmInstruction measurement must contain a key entry in the args field.")
      | some (.turns _) =>
          (find_measure_update rest readout qubit).map
            (fun o => o.map (fun l2 => instr :: l2))
      | some (.str s) =>
          if s == readout then
            if _convert_qubit_name_qoqo_to_iqm qubit ∈ instr.qubits then
              .error (.InvalidCircuit s!"Qubit {qubit} is being measured twice.")
            else
              .ok (some ({ instr with
                qubits := instr.qubits ++ [_convert_qubit_name_qoqo_to_iqm qubit] } :: rest))
          else
            (find_measure_update rest readout qubit).map
              (fun o => o.map (fun l2 => instr :: l2))
    else
      (find_measure_update rest readout qubit).map
        (fun o => o.map (fun l2 => instr :: l2))

/-- One pass of the body of `call_circuit`'s `PragmaLoop` arm: translate every
operation of the loop body through `call_operation`, appending the produced
instructions to `acc`. -/
def loop_body_pass (body : List Operation) (acc : List IqmInstruction) :
    Except RoqoqoBackendError (List IqmInstruction) :=
  body.foldlM (fun acc2 op => do
    match ← call_operation op with
    | some instruction => pure (acc2 ++ [instruction])
    | none => pure acc2) acc

/-- The `for _ in 0..reps` loop of the `PragmaLoop` arm: run `loop_body_pass`
`reps` times. -/
def loop_reps_pass : Nat → List Operation → List IqmInstruction →
    Except RoqoqoBackendError (List IqmInstruction)
  | 0, _, acc => .ok acc
  | n + 1, body, acc => do
      let acc2 ← loop_body_pass body acc
      loop_reps_pass n body acc2

/-- One iteration of `call_circuit`'s `for op in circuit` loop (interface.rs,
the big `match op`). -/
def process_op (device_number_qubits : Nat) (st : CCState) (op : Operation) :
    Except IqmBackendError CCState :=
  match op with
  | .DefinitionBit name length is_out =>
      if is_out then
        .ok { st with measured_qubits_map := alInsert st.measured_qubits_map name ([], length) }
      else .ok st
  | .MeasureQubit qubit readout readout_index =>
      let measured_qubits := st.measured_qubits ++ [qubit]
      match alGet st.measured_qubits_map readout with
      | none => .error (.InvalidCircuit
          "A MeasureQubit operation is writing to an undefined register.")
      | some _ =>
        let measured_qubits_map :=
          alUpdate st.measured_qubits_map readout (fun x => (x.1 ++ [readout_index], x.2))
        match find_measure_update st.circuit_vec readout qubit with
        | .error e => .error e
        | .ok (some circuit_vec) =>
            .ok { st with circuit_vec := circuit_vec
                        , measured_qubits := measured_qubits
                        , measured_qubits_map := measured_qubits_map }
        | .ok none =>
            .ok { st with
              circuit_vec := st.circuit_vec ++
                [{ name := "measure"
                 , qubits := [_convert_qubit_name_qoqo_to_iqm qubit]
                 , args := [("key", .str readout)] }]
              , measured_qubits := measured_qubits
              , measured_qubits_map := measured_qubits_map }
  | .PragmaSetNumberOfMeasurements o_number o_readout =>
      if st.number_measurements > 1 ∧ st.number_measurements ≠ o_number then
        .error (.InvalidCircuit
          "All PragmaSetNumberOfMeasurements in the circuit must have the same number of measurements.")
      else
        match alGet st.measured_qubits_map o_readout with
        | none => .error (.InvalidCircuit
            s!"PragmaSetNumberOfMeasurements writes to an undefined register {o_readout}")
        | some reg =>
          let readout_length := reg.2
          if st.measured_qubits.length > readout_length then
            .error (.RegisterTooSmall o_readout)
          else
            -- The source removes the collected indices of all `"measure"`-named
            -- instructions in reverse order, which retains exactly the
            -- instructions not named `"measure"`.
            .ok { circuit_vec :=
                    st.circuit_vec.filter (fun instr => instr.name ≠ "measure") ++
                    [{ name := "measure"
                     , qubits := st.measured_qubits.map _convert_qubit_name_qoqo_to_iqm
                     , args := [("key", .str o_readout)] }]
                , number_measurements := o_number
                , measured_qubits := st.measured_qubits
                , measured_qubits_map := [(o_readout, (st.measured_qubits, readout_length))] }
  | .PragmaRepeatedMeasurement readout o_number qubit_mapping =>
      if st.number_measurements > 1 then
        .error (.InvalidCircuit "Only one repeated measurement is allowed in the circuit.")
      else if st.measured_qubits ≠ [] then
        .error (.InvalidCircuit "Some qubits are being measured twice.")
      else
        let push_measure_all := fun (m : MeasuredQubitsMap) =>
          { st with
            number_measurements := o_number
            , measured_qubits_map := m
            , circuit_vec := st.circuit_vec ++
                [{ name := "measure"
                 , qubits := _convert_all_qubit_names device_number_qubits
                 , args := [("key", .str readout)] }] }
        match qubit_mapping with
        | none =>
          match alGet st.measured_qubits_map readout with
          | none => .error (.InvalidCircuit
              "A PragmaRepeatedMeasurement operation is writing to an undefined register.")
          | some reg =>
            let readout_length := reg.2
            .ok (push_measure_all
              (alInsert st.measured_qubits_map readout
                (List.range readout_length, readout_length)))
        | some mapping =>
          match alGet st.measured_qubits_map readout with
          | some _ =>
            -- `for qubit in map.keys().sorted() { x.0.push(map[qubit]) }`:
            -- the mapping's values in ascending key order (HashMap keys are
            -- unique, so sorting the pairs by key is the same iteration).
            .ok (push_measure_all
              (alUpdate st.measured_qubits_map readout (fun x =>
                (x.1 ++ ((mapping.mergeSort (fun a b => a.1 ≤ b.1)).map (fun p => p.2)),
                 x.2))))
          | none => .error (.InvalidCircuit
              "A PragmaRepeatedMeasurement operation is writing to an undefined register.")
  | .PragmaLoop repetitions body =>
      match repetitions.float with
      | .error _ => .error (.InvalidCircuit
          "Only Loops with non-symbolic repetitions are supported by the backend.")
      | .ok f =>
        let reps := rust_f64_as_i32 f
        match loop_reps_pass reps.toNat body st.circuit_vec with
        | .error e => .error (.RoqoqoBackendError e)
        | .ok circuit_vec => .ok { st with circuit_vec := circuit_vec }
  | op =>
      match call_operation op with
      | .error e => .error (.RoqoqoBackendError e)
      | .ok (some instruction) => .ok { st with circuit_vec := st.circuit_vec ++ [instruction] }
      | .ok none => .ok st

/-- The loop of `call_circuit` over all operations. -/
def process_ops (device_number_qubits : Nat) (circuit : List Operation) (st : CCState) :
    Except IqmBackendError CCState :=
  circuit.foldlM (process_op device_number_qubits) st

/-- Model of `call_circuit` (interface.rs): translate a circuit into an
`IqmCircuit` plus the final shot count.  A caller-supplied
`number_measurements_internal` overrides whatever the circuit set. -/
def call_circuit (circuit : List Operation) (device_number_qubits : Nat)
    (number_measurements_internal : Option Nat) (circuit_index : Nat) :
    Except IqmBackendError (IqmCircuit × Nat) := do
  let st ← process_ops device_number_qubits circuit initCCState
  let number_measurements :=
    match number_measurements_internal with
    | some n => n
    | none => st.number_measurements
  pure ({ name := "qc_" ++ toString circuit_index
        , instructions := st.circuit_vec
        , metadata := some st.measured_qubits_map }, number_measurements)

/-! ## Deneb device (devices/deneb_device.rs) -/

/-- Deneb has six qubits coupled to one central resonator. -/
def deneb_number_qubits : Nat := 6

/-- The states of the Load/Store finite-state scan (`enum State` inside
`validate_circuit_load_store`). -/
inductive LoadStoreState where
  | FoundLoad
  | FoundStore
  | Zero
deriving DecidableEq, Repr

/-- The mutable locals of `validate_circuit_load_store`: the state, the qubit
whose excitation was last stored, and whether that qubit has since been
addressed by a single-qubit operation. -/
structure LSState where
  state : LoadStoreState
  stored_qubit : Option Nat
  qubit_rotated : Bool
deriving DecidableEq, Repr

/-- The qubit of an operation that roqoqo classifies as a
`SingleQubitOperation` (used by the default arm of the Load/Store scan; the
`SingleExcitationLoad`/`Store` constructors are matched before that arm, so
their classification is irrelevant there). -/
def single_qubit_operation_qubit : Operation → Option Nat
  | .RotateXY qubit _ _ => some qubit
  | .MeasureQubit qubit _ _ => some qubit
  | .CZQubitResonator qubit _ => some qubit
  | .Hadamard qubit => some qubit
  | _ => none

/-- One iteration of the Load/Store scan (`for op in circuit.iter()` in
`DenebDevice::validate_circuit_load_store`). -/
def load_store_step (s : LSState) (op : Operation) : Except IqmBackendError LSState :=
  match op with
  | .SingleExcitationLoad o_qubit _ =>
    match s.state with
    | .FoundStore =>
      if s.qubit_rotated then
        match s.stored_qubit with
        | some stored =>
          if o_qubit = stored then
            .error (.InvalidCircuit
              s!"Circuit tries to rotate qubit {o_qubit} before loading an excitation into it from the resonator.")
          else .ok { s with state := .FoundLoad }
        | none => .ok { s with state := .FoundLoad }
      else .ok { s with state := .FoundLoad }
    | .FoundLoad =>
      .error (.InvalidCircuit "Circuit tries to load twice in a row from the resonator")
    | .Zero => .ok { s with state := .FoundLoad }
  | .SingleExcitationStore o_qubit _ =>
    match s.state with
    | .FoundStore =>
      .error (.InvalidCircuit "Circuit tries to store two excitations in the resonator.")
    | _ => .ok { s with stored_qubit := some o_qubit, state := .FoundStore }
  | _ =>
    match s.stored_qubit with
    | some stored =>
      match single_qubit_operation_qubit op with
      | some qubit =>
        if stored = qubit then .ok { s with qubit_rotated := true } else .ok s
      | none => .ok s
    | none => .ok s

/-- Model of `DenebDevice::validate_circuit_load_store`. -/
def validate_circuit_load_store (circuit : List Operation) :
    Except IqmBackendError Unit := do
  let _ ← circuit.foldlM load_store_step
    { state := .Zero, stored_qubit := none, qubit_rotated := false }
  pure ()

/-- The measurement/definition operations the Deneb connectivity check lets
through its default arm. -/
def allowed_measurement_ops : List String :=
  ["PragmaSetNumberOfMeasurements", "PragmaRepeatedMeasurement", "MeasureQubit",
   "DefinitionBit", "InputBit"]

/-- One iteration of `DenebDevice::validate_circuit_connectivity`. -/
def deneb_connectivity_step (op : Operation) : Except IqmBackendError Unit :=
  match op with
  | .RotateXY qubit _ _ =>
      if qubit ≥ deneb_number_qubits then
        .error (.InvalidCircuit
          s!"Too many qubits involved in the circuit: Found RotateXY acting on qubit: {qubit} Qubits in Deneb device: 6")
      else .ok ()
  | .CZQubitResonator qubit mode =>
      if qubit ≥ deneb_number_qubits then
        .error (.InvalidCircuit
          s!"Too many qubits involved in the circuit: Found CZQubitResonator acting on qubit: {qubit} Qubits in Deneb device: 6")
      else if mode ≠ 0 then
        .error (.InvalidCircuit
          "Wrong resonator index in operation CZQubitResonator. DenebDevice has a single resonator with index 0.")
      else .ok ()
  | .SingleExcitationLoad _ mode =>
      if mode ≠ 0 then
        .error (.InvalidCircuit
          "Wrong resonator index in operation SingleExcitationLoad. DenebDevice has a single resonator with index 0.")
      else .ok ()
  | .SingleExcitationStore _ mode =>
      if mode ≠ 0 then
        .error (.InvalidCircuit
          "Wrong resonator index in operation SingleExcitationStore. DenebDevice has a single resonator with index 0.")
      else .ok ()
  | op =>
      if allowed_measurement_ops.contains op.hqslang then .ok ()
      else .error (.RoqoqoBackendError (.OperationNotInBackend "IQM" op.hqslang))

/-- Model of `DenebDevice::validate_circuit_connectivity`. -/
def deneb_validate_circuit_connectivity (circuit : List Operation) :
    Except IqmBackendError Unit :=
  circuit.foldlM (fun _ op => deneb_connectivity_step op) ()

/-- Model of `DenebDevice::validate_circuit`: connectivity, then Load/Store. -/
def deneb_validate_circuit (circuit : List Operation) : Except IqmBackendError Unit := do
  deneb_validate_circuit_connectivity circuit
  validate_circuit_load_store circuit

/-! ## Backend validation (backend.rs) -/

/-- Model of `roqoqo::operations::InvolvedQubits`. -/
inductive InvolvedQubits where
  | involved_all
  | involved_none
  | involved_set (qubits : List Nat)
deriving DecidableEq, Repr

/-- Union of involved-qubit sets (`All` dominates), used for `PragmaLoop`,
whose involved qubits are those of its body. -/
def involved_union : InvolvedQubits → InvolvedQubits → InvolvedQubits
  | .involved_all, _ => .involved_all
  | _, .involved_all => .involved_all
  | .involved_none, x => x
  | x, .involved_none => x
  | .involved_set a, .involved_set b => .involved_set (a ++ b)

mutual

/-- The roqoqo `involved_qubits` of each operation: definitions, input and
pragma bookkeeping operations involve no qubits, `PragmaRepeatedMeasurement`
involves all qubits, gates and `MeasureQubit` involve their explicit qubits,
and `PragmaLoop` involves the qubits of its body. -/
def involved_qubits : Operation → InvolvedQubits
  | .DefinitionBit _ _ _ => .involved_none
  | .MeasureQubit qubit _ _ => .involved_set [qubit]
  | .PragmaSetNumberOfMeasurements _ _ => .involved_none
  | .PragmaRepeatedMeasurement _ _ _ => .involved_all
  | .PragmaLoop _ body => involved_qubits_list body
  | .RotateXY qubit _ _ => .involved_set [qubit]
  | .ControlledPauliZ control target => .involved_set [control, target]
  | .CZQubitResonator qubit _ => .involved_set [qubit]
  | .SingleExcitationLoad qubit _ => .involved_set [qubit]
  | .SingleExcitationStore qubit _ => .involved_set [qubit]
  | .InputBit _ _ _ => .involved_none
  | .Hadamard qubit => .involved_set [qubit]
  | _ => .involved_none

/-- Involved qubits of a list of operations (for `PragmaLoop` bodies). -/
def involved_qubits_list : List Operation → InvolvedQubits
  | [] => .involved_none
  | op :: rest => involved_union (involved_qubits op) (involved_qubits_list rest)

end

/-- Model of `_get_number_qubits` (backend.rs): for every operation whose
involved qubits are a concrete set, record the set's maximum; the result is
the overall maximum plus one (`None` when no operation contributed). -/
def _get_number_qubits (qc : List Operation) : Option Nat :=
  let number_qubits_vec := qc.filterMap (fun op =>
    match involved_qubits op with
    | .involved_set s => s.max?
    | _ => none)
  number_qubits_vec.max?.map (fun x => x + 1)

/-- The `circuit.definitions()` view of a roqoqo circuit: its definition
operations (here only `DefinitionBit` is modelled), in insertion order. -/
def definitions (circuit : List Operation) : List Operation :=
  circuit.filter (fun op =>
    match op with
    | .DefinitionBit _ _ _ => true
    | _ => false)

/-- The `readout_length` computation inside `Backend::validate_circuit`'s
`PragmaRepeatedMeasurement` arm: fold over all definitions, keeping the
length of the last `DefinitionBit` (initial value 0). -/
def last_definition_length (circuit : List Operation) : Nat :=
  (definitions circuit).foldl (fun acc op =>
    match op with
    | .DefinitionBit _ length _ => length
    | _ => acc) 0

/-- The mutable locals of `Backend::validate_circuit`'s measurement loop. -/
structure VMState where
  measured_qubits : List Nat
  measured : Bool
deriving DecidableEq, Repr

/-- One iteration of `Backend::validate_circuit`'s measurement loop. -/
def validate_meas_step (number_qubits device_number_qubits : Nat)
    (circuit : List Operation) (s : VMState) (op : Operation) :
    Except IqmBackendError VMState :=
  match op with
  | .MeasureQubit qubit _ _ =>
      if qubit ∈ s.measured_qubits then
        .error (.InvalidCircuit s!"Qubit {qubit} is being measured multiple times.")
      else
        .ok { measured_qubits := s.measured_qubits ++ [qubit], measured := true }
  | .PragmaRepeatedMeasurement readout _ _ =>
      if s.measured_qubits ≠ [] then
        .error (.InvalidCircuit
          "Qubits are being measured more than once. When using PragmaRepeatedMeasurement, there should not be individual qubit measurements, and the PragmaRepeatedMeasurement operation can appear only once in the circuit.")
      else
        let measured_qubits := s.measured_qubits ++ List.range device_number_qubits
        let readout_length := last_definition_length circuit
        if number_qubits > readout_length then
          .error (.RegisterTooSmall readout)
        else
          .ok { measured_qubits := measured_qubits, measured := true }
  | _ => .ok s

/-- Model of `Backend::validate_circuit` for a backend whose device is the
Deneb device (`self.device.name() == "Deneb"`, so the Deneb-specific
validation runs instead of the generic connectivity check). -/
def backend_validate_circuit_deneb (circuit : List Operation) :
    Except IqmBackendError Unit := do
  let number_qubits ← match _get_number_qubits circuit with
    | some n => pure n
    | none => Except.error .EmptyCircuit
  deneb_validate_circuit circuit
  let s ← circuit.foldlM (validate_meas_step number_qubits deneb_number_qubits circuit)
    { measured_qubits := [], measured := false }
  if s.measured then pure ()
  else Except.error (.InvalidCircuit
    "All circuits submitted need to have at least one measurement instruction.")

/-- `HashSet::insert` on the model of a string set (a duplicate-free list). -/
def hs_insert (l : List String) (s : String) : List String :=
  if s ∈ l then l else l ++ [s]

/-- The body of the `for op in circuit.iter()` loop inside
`Backend::validate_circuit_batch`: collect output-register names into the
set and record that an output register was found. -/
def collect_output_step (p : List String × Bool) (op : Operation) : List String × Bool :=
  match op with
  | .DefinitionBit name _ is_out => if is_out then (hs_insert p.1 name, true) else p
  | _ => p

/-- One iteration of `validate_circuit_batch`'s loop over the batch: validate
the circuit, scan it for output registers, and fail when it declares none. -/
def validate_batch_step (regs : List String) (circuit : List Operation) :
    Except IqmBackendError (List String) := do
  backend_validate_circuit_deneb circuit
  let res := circuit.foldl collect_output_step (regs, false)
  if res.2 then pure res.1
  else Except.error (.InvalidCircuit
    "Circuits need to write to at least one output register.")

/-- Model of `Backend::validate_circuit_batch` (Deneb backend): validate each
circuit, require each circuit to declare at least one output register, and
require the number of distinct output-register names collected across the
batch to be at least the number of circuits. -/
def validate_circuit_batch (circuit_batch : List (List Operation)) :
    Except IqmBackendError Unit := do
  let output_registers ← circuit_batch.foldlM validate_batch_step ([] : List String)
  if output_registers.length < circuit_batch.length then
    Except.error (.InvalidCircuit
      "When submitting a batch of circuits, they need to write to different output registers.")
  else pure ()

/-- Model of the submission payload (`IqmRunRequest`), restricted to the
fields the core computes. -/
structure IqmRunRequest where
  circuits : List IqmCircuit
  shots : Nat
deriving DecidableEq, Repr

/-- The local phase of `Backend::submit_circuit_batch` (Deneb backend): batch
validation, per-circuit translation, and the shot-count consistency check.
Everything after this point in the source is the network POST; a local
failure therefore happens before any network request. -/
def submit_circuit_batch_local (circuit_batch : List (List Operation))
    (number_measurements_internal : Option Nat) :
    Except IqmBackendError IqmRunRequest := do
  validate_circuit_batch circuit_batch
  let res ← circuit_batch.enum.foldlM
    (fun (acc : List IqmCircuit × List Nat) p => do
      let (circuit_index, circuit) := p
      let (iqm_circuit, number_measurements) ←
        call_circuit circuit deneb_number_qubits number_measurements_internal circuit_index
      pure (acc.1 ++ [iqm_circuit],
            if number_measurements ∈ acc.2 then acc.2 else acc.2 ++ [number_measurements]))
    (([], []) : List IqmCircuit × List Nat)
  if res.2.length ≠ 1 then
    Except.error (.InvalidCircuit
      "Circuits in the circuit batch have different numbers of measurements, which is not allowed by the backend.")
  else
    pure { circuits := res.1, shots := res.2.headD 0 }

/-! ## Result reassembly (backend.rs) -/

/-- Model of `Status` (backend.rs). -/
inductive Status where
  | PendingCompilation
  | PendingExecution
  | Ready
  | Failed
  | Aborted
deriving DecidableEq, Repr

/-- Measurement results of one circuit: register name ↦ shots ↦ per-measured-
qubit 0/1 outcomes (`u8` in the source, modelled as `Nat`). -/
abbrev CircuitResult := List (String × List (List Nat))

/-- Per-batch results: one `CircuitResult` per submitted circuit. -/
abbrev BatchResult := List CircuitResult

/-- Model of `Metadata` (backend.rs): the echo of the original request. -/
structure Metadata where
  request : IqmRunRequest
deriving DecidableEq, Repr

/-- Model of `IqmRunResult` (backend.rs). -/
structure IqmRunResult where
  status : Status
  measurements : Option BatchResult
  message : Option String
  metadata : Metadata
  warnings : Option (List String)
deriving DecidableEq, Repr

/-- A bit output register: `[shot][bit]`. -/
abbrev BitOutputRegister := List (List Bool)

/-- Model of the `Registers` triple returned by `results_to_registers`; the
float and complex components are always produced empty. -/
structure Registers where
  bit_registers : List (String × BitOutputRegister)
  float_registers : List (String × List (List ℚ))
  complex_registers : List (String × List (List (ℚ × ℚ)))
deriving DecidableEq, Repr

/-- Merging one register entry of a circuit's metadata into the accumulated
map, failing on a duplicate register (inner loop of
`get_measured_qubits_map`). -/
def merge_metadata_entry (m2 : MeasuredQubitsMap) (p : String × (List Nat × Nat)) :
    Except IqmBackendError MeasuredQubitsMap :=
  match alGet m2 p.1 with
  | some _ => Except.error (.MetadataError
      "Measured qubits maps from different circuits contain entries for the same register.")
  | none => pure (alInsert m2 p.1 p.2)

/-- Merging one circuit's echoed metadata map (outer loop of
`get_measured_qubits_map`); missing metadata is an error. -/
def merge_circuit_metadata (m : MeasuredQubitsMap) (circuit : IqmCircuit) :
    Except IqmBackendError MeasuredQubitsMap := do
  let tmp ← match circuit.metadata with
    | some t => pure t
    | none => Except.error (.MetadataError
        "Missing metadata field in the copy of IqmRequest returned with the results.")
  tmp.foldlM merge_metadata_entry m

/-- Model of `get_measured_qubits_map` (backend.rs): merge the per-circuit
metadata maps echoed with the results, failing if a circuit's metadata is
missing or if two circuits declare the same register. -/
def get_measured_qubits_map (results : IqmRunResult) :
    Except IqmBackendError MeasuredQubitsMap :=
  results.metadata.request.circuits.foldlM merge_circuit_metadata []

/-- The write loop of `results_to_registers` for one shot:
`output_reg[shot][qubit] ^= shot_result[j] != 0` for each position `j` of the
measured-qubit list (the zip pairs `measured_qubits[j]` with
`shot_result[j]`). -/
def write_shot (measured_qubits : List Nat) (shot_result : List Nat)
    (row : List Bool) : List Bool :=
  (List.zip measured_qubits shot_result).foldl
    (fun r p => r.set p.1 (xor (r.getD p.1 false) (p.2 != 0))) row

/-- Fill one register's rows from its per-shot results.  The source indexes
`shot_result[j]` and `output_reg[shot][qubit]` without bounds checks and
panics when a shot row is shorter than the measured-qubit list or a measured
qubit index reaches past the declared register length; the panic condition is
checked up front here. -/
def process_register_result (measured_qubits : List Nat) (reg_length : Nat)
    (reg_result : List (List Nat)) : Except IqmBackendError BitOutputRegister :=
  if reg_result.any (fun shot_result =>
       decide (shot_result.length < measured_qubits.length)
       || measured_qubits.any (fun qubit => decide (reg_length ≤ qubit))) then
    .error (.Panic "index out of bounds")
  else
    .ok (reg_result.map (fun shot_result =>
      write_shot measured_qubits shot_result (List.replicate reg_length false)))

/-- Processing one `(register, per-shot results)` entry of a circuit's result
map (the body of the inner loop of `results_to_registers`): look the register
up in the measured-qubits map (error when absent), reject a register already
seen, and fill a fresh register. -/
def reassemble_entry (measured_qubits_map : MeasuredQubitsMap)
    (bit_registers : List (String × BitOutputRegister))
    (p : String × List (List Nat)) :
    Except IqmBackendError (List (String × BitOutputRegister)) := do
  let (reg, reg_result) := p
  let mq ← match alGet measured_qubits_map reg with
    | some x => pure x
    | none => Except.error (.InvalidResults
        "Backend results contain registers that are not present in the measured_qubits_map.")
  match alGet bit_registers reg with
  | some _ => Except.error (.InvalidResults
      "Backend results contain multiple entries for the same register.")
  | none => do
    let filled ← process_register_result mq.1 mq.2 reg_result
    pure (alInsert bit_registers reg filled)

/-- Processing one circuit's result map (the outer loop body of
`results_to_registers`). -/
def reassemble_circuit_result (measured_qubits_map : MeasuredQubitsMap)
    (bit_registers : List (String × BitOutputRegister)) (result : CircuitResult) :
    Except IqmBackendError (List (String × BitOutputRegister)) :=
  result.foldlM (reassemble_entry measured_qubits_map) bit_registers

/-- Model of `results_to_registers` (backend.rs): rebuild named boolean
registers from the per-shot payload, guided by the measured-qubits map
recovered from the request echo. -/
def results_to_registers (results : IqmRunResult) (id : String) :
    Except IqmBackendError Registers := do
  let measured_qubits_map ← get_measured_qubits_map results
  let meas_results ← match results.measurements with
    | some m => pure m
    | none => Except.error (.EmptyResult id)
  let bit_registers ← meas_results.foldlM (reassemble_circuit_result measured_qubits_map)
    ([] : List (String × BitOutputRegister))
  pure { bit_registers := bit_registers, float_registers := [], complex_registers := [] }

/-- Package a measured-qubits map and a single circuit's payload as an
`IqmRunResult`, the shape `run_circuit` produces for one submitted circuit. -/
def mk_run_result (m : MeasuredQubitsMap) (payload : CircuitResult) : IqmRunResult :=
  { status := .Ready
  , measurements := some [payload]
  , message := none
  , metadata := { request :=
      { circuits := [{ name := "qc_0", instructions := [], metadata := some m }]
      , shots := 1 } }
  , warnings := none }

/-! ## Syntactic views of a circuit used by the statements -/

/-- The qubits measured by top-level `MeasureQubit` operations, in order. -/
def top_measured (ops : List Operation) : List Nat :=
  ops.filterMap (fun op =>
    match op with
    | .MeasureQubit q _ _ => some q
    | _ => none)

/-- The readout indices written by top-level `MeasureQubit` operations
targeting register `r`, in order. -/
def top_readout_indices (r : String) (ops : List Operation) : List Nat :=
  ops.filterMap (fun op =>
    match op with
    | .MeasureQubit _ ro i => if ro = r then some i else none
    | _ => none)

/-- Check that the only measurement operations of `ops` are `MeasureQubit`
operations, all targeting register `r` (no `PragmaSetNumberOfMeasurements`,
no `PragmaRepeatedMeasurement`). -/
def only_single_measurements_to (r : String) (ops : List Operation) : Bool :=
  ops.all (fun op =>
    match op with
    | .PragmaSetNumberOfMeasurements _ _ => false
    | .PragmaRepeatedMeasurement _ _ _ => false
    | .MeasureQubit _ ro _ => ro == r
    | _ => true)

/-- The declared lengths of output bit registers named `r`, in order. -/
def output_defs_named (r : String) (ops : List Operation) : List Nat :=
  ops.filterMap (fun op =>
    match op with
    | .DefinitionBit name len is_out => if name = r ∧ is_out then some len else none
    | _ => none)

/-- The contribution of one operation to `call_circuit`'s `measured_qubits`
trace: only `MeasureQubit` pushes its qubit. -/
def op_measured (op : Operation) : List Nat :=
  match op with
  | .MeasureQubit q _ _ => [q]
  | _ => []

/-- Check that one operation does not write the `MeasuredQubitsMap` in
`call_circuit`: it is no output `DefinitionBit`, no `MeasureQubit`, no
`PragmaSetNumberOfMeasurements` and no `PragmaRepeatedMeasurement`. -/
def op_map_quiet (op : Operation) : Bool :=
  match op with
  | .DefinitionBit _ _ is_out => !is_out
  | .MeasureQubit _ _ _ => false
  | .PragmaSetNumberOfMeasurements _ _ => false
  | .PragmaRepeatedMeasurement _ _ _ => false
  | _ => true

/-- Check that no operation of `ops` writes the `MeasuredQubitsMap`. -/
def map_quiet (ops : List Operation) : Bool :=
  ops.all op_map_quiet

/-- The measure instruction carrying the qubits `ms` for register `r`, as
built and maintained by `call_circuit`'s `MeasureQubit` arm. -/
def mk_measure (r : String) (ms : List Nat) : IqmInstruction :=
  { name := "measure"
  , qubits := ms.map _convert_qubit_name_qoqo_to_iqm
  , args := [("key", .str r)] }

/-- Check for an instruction named `"measure"` (the filter used by
`call_circuit`'s coalescing scan). -/
def is_measure_instr (instr : IqmInstruction) : Bool :=
  instr.name == "measure"

/-- Check that an operation is handled by neither of the four bookkeeping
arms of `call_circuit` (register declaration, individual measurement, shot
pragma, repeated measurement): such an operation can only append non-measure
gate instructions. -/
def op_c1_neutral (op : Operation) : Bool :=
  match op with
  | .DefinitionBit _ _ _ => false
  | .MeasureQubit _ _ _ => false
  | .PragmaSetNumberOfMeasurements _ _ => false
  | .PragmaRepeatedMeasurement _ _ _ => false
  | _ => true

/-- The register contents `results_to_registers` produces for one register
whose measured-qubits entry is found: one row per shot, each row obtained by
the source's write loop over a freshly false-initialised row. -/
def reassemble_register (m : MeasuredQubitsMap) (reg : String)
    (rows : List (List Nat)) : BitOutputRegister :=
  match alGet m reg with
  | some mq => rows.map (fun os => write_shot mq.1 os (List.replicate mq.2 false))
  | none => []

/-- Check that a circuit declares at least one output bit register. -/
def has_output_def (circuit : List Operation) : Bool :=
  circuit.any (fun op =>
    match op with
    | .DefinitionBit _ _ is_out => is_out
    | _ => false)

/-- The set (duplicate-free list) of output-register names collected across a
batch, exactly as `validate_circuit_batch`'s fold collects them. -/
def batch_output_registers (circuit_batch : List (List Operation)) : List String :=
  circuit_batch.foldl (fun regs circuit =>
    (circuit.foldl collect_output_step (regs, false)).1) []

/-- One translation pass over a loop body starting from an empty instruction
list (the instructions one iteration of the `PragmaLoop` arm contributes). -/
def translate_body (body : List Operation) : Except RoqoqoBackendError (List IqmInstruction) :=
  loop_body_pass body []

/-! ## Association-list and monadic helper lemmas -/

theorem except_bind_ok {ε α β : Type} {e : Except ε α} {f : α → Except ε β} {v : β}
    (h : (e >>= f) = .ok v) : ∃ a, e = .ok a ∧ f a = .ok v := by
  cases e with
  | ok a => exact ⟨a, rfl, h⟩
  | error s => simp [Bind.bind, Except.bind] at h

theorem except_bind_error {ε α β : Type} {e : Except ε α} {f : α → Except ε β} {s : ε}
    (h : e = .error s) : (e >>= f) = .error s := by
  subst h; rfl

@[simp] theorem alGet_nil {α : Type} (k : String) : alGet ([] : List (String × α)) k = none := rfl

@[simp] theorem alGet_cons {α : Type} (p : String × α) (m : List (String × α)) (k : String) :
    alGet (p :: m) k = if p.1 = k then some p.2 else alGet m k := by
  by_cases h : p.1 = k <;> simp [alGet, List.find?_cons, h]

theorem alGet_alInsert_self {α : Type} (m : List (String × α)) (k : String) (v : α) :
    alGet (alInsert m k v) k = some v := by
  induction m with
  | nil => simp [alInsert]
  | cons p rest ih =>
    by_cases h : p.1 = k
    · simp [alInsert, h]
    · simp [alInsert, h, ih]

theorem alGet_alInsert_ne {α : Type} (m : List (String × α)) (k k2 : String) (v : α)
    (h : k ≠ k2) : alGet (alInsert m k v) k2 = alGet m k2 := by
  induction m with
  | nil => simp [alInsert, h]
  | cons p rest ih =>
    by_cases hp : p.1 = k
    · simp [alInsert, hp, h]
    · simp [alInsert, hp, ih]

theorem alGet_alUpdate_self {α : Type} (m : List (String × α)) (k : String) (f : α → α) :
    alGet (alUpdate m k f) k = (alGet m k).map f := by
  induction m with
  | nil => simp [alUpdate]
  | cons p rest ih =>
    by_cases h : p.1 = k
    · simp [alUpdate, h]
    · simp [alUpdate, h, ih]

theorem alGet_alUpdate_ne {α : Type} (m : List (String × α)) (k k2 : String) (f : α → α)
    (h : k ≠ k2) : alGet (alUpdate m k f) k2 = alGet m k2 := by
  induction m with
  | nil => simp [alUpdate]
  | cons p rest ih =>
    by_cases hp : p.1 = k
    · simp [alUpdate, hp, h, hp ▸ h]
    · simp [alUpdate, hp, ih]

/-! ## Claim C3: Deneb Load/Store finite-state validation -/

/-- C3 (confirmed).  For the resonator-coupled (Deneb) device's Load/Store
scan, for every qubit `q`: `Store(q), Rotate(q), Load(q)` fails validation;
`Store(q), Load(q), Rotate(q)` passes; `Store(q), Store(q)` fails. -/
theorem claim_C3 (q : Nat) (theta phi : CalculatorFloat) :
    (validate_circuit_load_store
      [.SingleExcitationStore q 0, .RotateXY q theta phi,
       .SingleExcitationLoad q 0]).isOk = false
  ∧ (validate_circuit_load_store
      [.SingleExcitationStore q 0, .SingleExcitationLoad q 0,
       .RotateXY q theta phi]).isOk = true
  ∧ (validate_circuit_load_store
      [.SingleExcitationStore q 0, .SingleExcitationStore q 0]).isOk = false := by
  refine ⟨?_, ?_, ?_⟩ <;>
    simp [validate_circuit_load_store, load_store_step, single_qubit_operation_qubit,
      List.foldlM_cons, List.foldlM_nil, Except.isOk, Except.toBool, bind, Except.bind, pure,
      Except.pure]

/-- Membership of a converted qubit label in the all-qubit label list. -/
theorem mem_convert_all_qubit_names (q dnq : Nat) :
    (_convert_qubit_name_qoqo_to_iqm q ∈ _convert_all_qubit_names dnq) ↔ q < dnq := by
  simp only [_convert_all_qubit_names, _convert_qubit_name_qoqo_to_iqm, List.mem_map,
    List.mem_range, IqmQubitName.QB.injEq]
  constructor
  · rintro ⟨a, ha, hq⟩; omega
  · intro h; exact ⟨q, h, rfl⟩

/-! ## Claim C5: the RepeatedMeasurement register-size check -/

/-- C5 counterexample.  Register `"ro"` has declared length 3, strictly
smaller than the Deneb device's qubit count 6, yet validation of a circuit
with a `PragmaRepeatedMeasurement` targeting `"ro"` succeeds: the code
compares the circuit's own maximal qubit index + 1 (here 1), not the device's
qubit count, against the register length. -/
theorem claim_C5_counterexample :
    backend_validate_circuit_deneb
      [.DefinitionBit "ro" 3 true, .RotateXY 0 (.Float 1) (.Float 1),
       .PragmaRepeatedMeasurement "ro" 10 none] = .ok () := by rfl

/-- C5 (corrected).  For a circuit whose only qubit-touching gate acts on
qubit `mq` and which ends in a `PragmaRepeatedMeasurement` targeting `r`, the
validation fails with `RegisterTooSmall` exactly when the circuit passes the
Deneb connectivity check (`mq < 6`) and the length of the *last* declared bit
register is smaller than `mq + 1` — the device's qubit count is not consulted,
and with two declarations the length of the last one is used even though the
measurement targets the first. -/
theorem claim_C5 (mq len len2 : Nat) (r s2 : String) (n : Nat) (theta phi : ℚ) :
    ((backend_validate_circuit_deneb
        [.DefinitionBit r len true, .RotateXY mq (.Float theta) (.Float phi),
         .PragmaRepeatedMeasurement r n none]
      = .error (.RegisterTooSmall r)) ↔ (mq < 6 ∧ len < mq + 1))
  ∧ ((backend_validate_circuit_deneb
        [.DefinitionBit r len true, .RotateXY mq (.Float theta) (.Float phi),
         .PragmaRepeatedMeasurement r n none]).isOk
      = decide (mq < 6 ∧ mq + 1 ≤ len))
  ∧ ((backend_validate_circuit_deneb
        [.DefinitionBit r len true, .DefinitionBit s2 len2 true,
         .RotateXY mq (.Float theta) (.Float phi),
         .PragmaRepeatedMeasurement r n none]
      = .error (.RegisterTooSmall r)) ↔ (mq < 6 ∧ len2 < mq + 1)) := by
  refine ⟨?_, ?_, ?_⟩
  <;> simp [backend_validate_circuit_deneb, deneb_validate_circuit,
        deneb_validate_circuit_connectivity, deneb_connectivity_step,
        validate_circuit_load_store, load_store_step, single_qubit_operation_qubit,
        _get_number_qubits, involved_qubits, validate_meas_step,
        last_definition_length, definitions, allowed_measurement_ops,
        Operation.hqslang, deneb_number_qubits, List.foldlM_cons, List.foldlM_nil,
        bind, Except.bind, pure, Except.pure, Except.isOk, Except.toBool]
  <;> split_ifs
  <;> simp_all
  <;> omega

/-! ## Claim C7: conflicting PragmaSetNumberOfMeasurements -/

/-- C7 counterexample.  Two `PragmaSetNumberOfMeasurements` with the
different counts 1 and 2 on the same register: translation succeeds, because
the conflict check only fires when the previously set count is greater
than 1. -/
theorem claim_C7_counterexample :
    (call_circuit [.DefinitionBit "ro" 1 true,
        .PragmaSetNumberOfMeasurements 1 "ro",
        .PragmaSetNumberOfMeasurements 2 "ro"] 2 none 0).isOk = true := by rfl

/-- C7 (corrected).  For two `PragmaSetNumberOfMeasurements` on a declared
register, translation fails exactly when the first count is greater than 1
and differs from the second; a first count of 0 or 1 is silently
overwritten. -/
theorem claim_C7 (n1 n2 len dnq idx : Nat) (r : String) :
    (call_circuit [.DefinitionBit r len true,
        .PragmaSetNumberOfMeasurements n1 r,
        .PragmaSetNumberOfMeasurements n2 r] dnq none idx).isOk
      = decide (¬(1 < n1 ∧ n1 ≠ n2)) := by
  by_cases hc : 1 < n1 ∧ n1 ≠ n2
  <;> simp [call_circuit, process_ops, process_op, initCCState,
        List.foldlM_cons, List.foldlM_nil, bind, Except.bind, pure, Except.pure,
        alGet_alInsert_self, Except.isOk, Except.toBool, hc]

/-! ## Claim C9: no qubit measured more than once / measurement styles -/

/-- C9 counterexample.  A `PragmaRepeatedMeasurement` followed by a
`MeasureQubit` on qubit 7 (an index at or above the Deneb qubit count 6, with
a register long enough for the size check): both validation and translation
succeed, so the two measurement styles are not mutually exclusive as
claimed. -/
theorem claim_C9_counterexample :
    backend_validate_circuit_deneb
      [.DefinitionBit "ro" 8 true, .PragmaRepeatedMeasurement "ro" 2 none,
       .MeasureQubit 7 "ro" 7] = .ok ()
  ∧ (call_circuit [.DefinitionBit "ro" 8 true, .PragmaRepeatedMeasurement "ro" 2 none,
       .MeasureQubit 7 "ro" 7] 6 none 0).isOk = true := ⟨rfl, rfl⟩

/-- C9 (corrected).  Deneb-backend validation rejects two `MeasureQubit` on
the same qubit and any `MeasureQubit` preceding a `PragmaRepeatedMeasurement`;
a `MeasureQubit` *following* a `PragmaRepeatedMeasurement` is rejected exactly
when its qubit index is below the device's qubit count (qubits at or above it
slip through, provided the register-size check `q + 1 ≤ len` passes).
Translation likewise rejects a `PragmaRepeatedMeasurement` preceded by an
individual measurement, but accepts a `MeasureQubit` after one whenever its
qubit index is at or above the backend's qubit-count argument. -/
theorem claim_C9 (q i j n len dnq idx : Nat) (r : String) :
    (backend_validate_circuit_deneb
        [.DefinitionBit r len true, .MeasureQubit q r i, .MeasureQubit q r j]).isOk = false
  ∧ (backend_validate_circuit_deneb
        [.DefinitionBit r len true, .MeasureQubit q r i,
         .PragmaRepeatedMeasurement r n none]).isOk = false
  ∧ (backend_validate_circuit_deneb
        [.DefinitionBit r len true, .PragmaRepeatedMeasurement r n none,
         .MeasureQubit q r i]).isOk = decide (q + 1 ≤ len ∧ 6 ≤ q)
  ∧ (call_circuit [.DefinitionBit r len true, .MeasureQubit q r i,
        .PragmaRepeatedMeasurement r n none] dnq none idx).isOk = false
  ∧ (call_circuit [.DefinitionBit r len true, .PragmaRepeatedMeasurement r n none,
        .MeasureQubit q r i] dnq none idx).isOk = decide (dnq ≤ q) := by
  refine ⟨?_, ?_, ?_, ?_, ?_⟩
  · simp [backend_validate_circuit_deneb, deneb_validate_circuit,
      deneb_validate_circuit_connectivity, deneb_connectivity_step,
      validate_circuit_load_store, load_store_step, single_qubit_operation_qubit,
      _get_number_qubits, involved_qubits, validate_meas_step,
      last_definition_length, definitions, allowed_measurement_ops,
      Operation.hqslang, deneb_number_qubits, List.foldlM_cons, List.foldlM_nil,
      bind, Except.bind, pure, Except.pure, Except.isOk, Except.toBool]
  · simp [backend_validate_circuit_deneb, deneb_validate_circuit,
      deneb_validate_circuit_connectivity, deneb_connectivity_step,
      validate_circuit_load_store, load_store_step, single_qubit_operation_qubit,
      _get_number_qubits, involved_qubits, validate_meas_step,
      last_definition_length, definitions, allowed_measurement_ops,
      Operation.hqslang, deneb_number_qubits, List.foldlM_cons, List.foldlM_nil,
      bind, Except.bind, pure, Except.pure, Except.isOk, Except.toBool]
  · simp [backend_validate_circuit_deneb, deneb_validate_circuit,
        deneb_validate_circuit_connectivity, deneb_connectivity_step,
        validate_circuit_load_store, load_store_step, single_qubit_operation_qubit,
        _get_number_qubits, involved_qubits, validate_meas_step,
        last_definition_length, definitions, allowed_measurement_ops,
        Operation.hqslang, deneb_number_qubits, List.foldlM_cons, List.foldlM_nil,
        bind, Except.bind, pure, Except.pure, Except.isOk, Except.toBool,
        List.mem_range]
    split_ifs <;> simp_all <;> try (split_ifs <;> simp_all) <;> try omega
  · simp [call_circuit, process_ops, process_op, initCCState, find_measure_update,
      List.foldlM_cons, List.foldlM_nil, bind, Except.bind, pure, Except.pure,
      alGet_alInsert_self, Except.isOk, Except.toBool]
  · simp [call_circuit, process_ops, process_op, initCCState, find_measure_update,
        List.foldlM_cons, List.foldlM_nil, bind, Except.bind, pure, Except.pure,
        alGet_alInsert_self, alGet_alUpdate_self, Except.isOk, Except.toBool,
        mem_convert_all_qubit_names]
    split_ifs <;> simp_all <;> omega

/-! ## Claim C4: PragmaLoop inlining -/

theorem loop_body_pass_cons (op : Operation) (rest : List Operation)
    (acc : List IqmInstruction) :
    loop_body_pass (op :: rest) acc =
      match call_operation op with
      | .error e => .error e
      | .ok (some ins) => loop_body_pass rest (acc ++ [ins])
      | .ok none => loop_body_pass rest acc := by
  cases hop : call_operation op with
  | error e => simp [loop_body_pass, List.foldlM_cons, hop, bind, Except.bind]
  | ok o =>
    cases o <;>
      simp [loop_body_pass, List.foldlM_cons, hop, bind, Except.bind, pure, Except.pure]

theorem loop_body_pass_eq (body : List Operation) (acc : List IqmInstruction) :
    loop_body_pass body acc = (translate_body body).map (fun l => acc ++ l) := by
  induction body generalizing acc with
  | nil => simp [loop_body_pass, translate_body, Except.map, pure, Except.pure]
  | cons op rest ih =>
    rw [show translate_body (op :: rest) = loop_body_pass (op :: rest) [] from rfl]
    rw [loop_body_pass_cons, loop_body_pass_cons]
    cases hop : call_operation op with
    | error e => simp [Except.map]
    | ok o =>
      cases o with
      | none => exact ih acc
      | some ins =>
        simp only [List.nil_append]
        rw [ih (acc ++ [ins]), ih [ins]]
        cases translate_body rest <;> simp [Except.map]

theorem loop_reps_pass_ok (n : Nat) (body : List Operation) (acc : List IqmInstruction)
    (l : List IqmInstruction) (hl : translate_body body = .ok l) :
    loop_reps_pass n body acc = .ok (acc ++ (List.replicate n l).flatten) := by
  induction n generalizing acc with
  | zero => simp [loop_reps_pass]
  | succ k ih =>
    simp only [loop_reps_pass, loop_body_pass_eq, hl, Except.map, bind, Except.bind]
    rw [ih (acc ++ l)]
    simp [List.replicate_succ]

theorem translate_body_full (body : List Operation)
    (h : ∀ op ∈ body, ∃ ins, call_operation op = .ok (some ins)) :
    ∃ l, translate_body body = .ok l ∧ l.length = body.length := by
  induction body with
  | nil => exact ⟨[], rfl, rfl⟩
  | cons op rest ih =>
    obtain ⟨ins, hins⟩ := h op (List.mem_cons_self op rest)
    obtain ⟨l, hl, hlen⟩ := ih (fun o ho => h o (List.mem_cons_of_mem op ho))
    refine ⟨ins :: l, ?_, by simp [hlen]⟩
    have hstep : translate_body (op :: rest) = loop_body_pass rest [ins] := by
      rw [show translate_body (op :: rest) = loop_body_pass (op :: rest) [] from rfl,
        loop_body_pass_cons, hins]
      simp
    rw [hstep, loop_body_pass_eq rest [ins], hl]
    simp [Except.map]

theorem rust_cast_natCast (n : Nat) (hn : n ≤ 2147483647) :
    (rust_f64_as_i32 ((n : ℚ))).toNat = n := by
  simp only [rust_f64_as_i32]
  have h1 : ((n : ℚ)).num = (n : Int) := by simp
  have h2 : ((n : ℚ)).den = 1 := by simp
  rw [h1, h2]
  simp only [Nat.cast_one, Int.tdiv_one]
  omega

/-- C4 (confirmed).  A `PragmaLoop` with a concrete integer repetition count
`n` (within i32 range — the source casts the count through `i32`) whose body
translates to the instruction list `l` contributes exactly the `n`-fold
repetition of `l`, in flattened order, and translation then continues with
the rest of the circuit; when every body operation maps to one vendor
instruction that is `n × k` instructions for a `k`-operation body.  A
`PragmaLoop` with a symbolic repetition count makes the whole translation
fail, so no instruction from inside (or outside) that loop is emitted. -/
theorem claim_C4 (n : Nat) (hn : n ≤ 2147483647) (body rest : List Operation)
    (l : List IqmInstruction) (st : CCState) (dnq : Nat)
    (hl : translate_body body = .ok l)
    (pre post bodyS : List Operation) (sym : String) (nmi : Option Nat) (idx : Nat) :
    (process_ops dnq (.PragmaLoop (.Float (n : ℚ)) body :: rest) st
      = process_ops dnq rest
          { st with circuit_vec := st.circuit_vec ++ (List.replicate n l).flatten })
  ∧ (List.replicate n l).flatten.length = n * l.length
  ∧ ((∀ op ∈ body, ∃ ins, call_operation op = .ok (some ins)) → l.length = body.length)
  ∧ ∀ res, call_circuit (pre ++ .PragmaLoop (.Str sym) bodyS :: post) dnq nmi idx ≠ .ok res := by
  refine ⟨?_, ?_, ?_, ?_⟩
  · simp only [process_ops, List.foldlM_cons, process_op, CalculatorFloat.float]
    rw [rust_cast_natCast n hn, loop_reps_pass_ok n body st.circuit_vec l hl]
    simp [bind, Except.bind]
  · induction n with
    | zero => simp
    | succ k ih => simp [List.replicate_succ, ih, Nat.succ_mul]; ring
  · intro h
    obtain ⟨l2, hl2, hlen⟩ := translate_body_full body h
    rw [hl] at hl2
    cases hl2
    exact hlen
  · intro res hok
    simp only [call_circuit, process_ops, List.foldlM_append, List.foldlM_cons] at hok
    obtain ⟨st1, hst1, -⟩ := except_bind_ok hok
    obtain ⟨st2, hst2, hcont⟩ := except_bind_ok hst1
    obtain ⟨st3, hst3, -⟩ := except_bind_ok hcont
    simp [process_op, CalculatorFloat.float] at hst3

/-- C4 witness: the loop of 2 repetitions over one `ControlledPauliZ`
contributes exactly its doubled translation. -/
theorem claim_C4_witness :
    (2 : Nat) ≤ 2147483647
  ∧ translate_body [Operation.ControlledPauliZ 0 1]
      = .ok [{ name := "cz", qubits := [.QB 1, .QB 2], args := [] }]
  ∧ process_ops 2 [.PragmaLoop (.Float ((2 : Nat) : ℚ)) [Operation.ControlledPauliZ 0 1]]
        initCCState
      = process_ops 2 []
          { initCCState with circuit_vec := initCCState.circuit_vec ++
              (List.replicate 2 [{ name := "cz", qubits := [.QB 1, .QB 2], args := [] }]).flatten }
  ∧ ∀ res, call_circuit
      ([] ++ Operation.PragmaLoop (.Str "reps") [Operation.RotateXY 2 (.Float 1) (.Float 1)] :: [])
      2 none 0 ≠ .ok res := by
  have h := claim_C4 2 (by decide) [Operation.ControlledPauliZ 0 1] []
    [{ name := "cz", qubits := [.QB 1, .QB 2], args := [] }] initCCState 2 rfl
    [] [] [Operation.RotateXY 2 (.Float 1) (.Float 1)] "reps" none 0
  exact ⟨by decide, rfl, h.1, h.2.2.2⟩

/-! ## Claim C10: PragmaSetNumberOfMeasurements resets the register map -/

theorem process_op_measured (dnq : Nat) (st : CCState) (op : Operation) (st1 : CCState)
    (h : process_op dnq st op = .ok st1) :
    st1.measured_qubits = st.measured_qubits ++ op_measured op := by
  cases op <;> simp only [process_op, op_measured] at h ⊢ <;>
    (try split at h) <;> (try split at h) <;> (try split at h) <;> (try split at h) <;>
    (try simp_all) <;> (try (cases h; simp)) <;> (try simp_all)

theorem process_ops_measured (dnq : Nat) (ops : List Operation) (st final : CCState)
    (h : process_ops dnq ops st = .ok final) :
    final.measured_qubits = st.measured_qubits ++ top_measured ops := by
  induction ops generalizing st with
  | nil =>
    simp only [process_ops, List.foldlM_nil, pure, Except.pure, Except.ok.injEq] at h
    simp [h, top_measured]
  | cons op rest ih =>
    simp only [process_ops, List.foldlM_cons] at h
    obtain ⟨st1, hst1, hrest⟩ := except_bind_ok h
    have h1 := process_op_measured dnq st op st1 hst1
    have h2 := ih st1 hrest
    rw [h2, h1]
    cases op <;> simp [top_measured, op_measured, List.filterMap_cons]

theorem process_op_map_quiet (dnq : Nat) (st : CCState) (op : Operation) (st1 : CCState)
    (hq : op_map_quiet op = true) (h : process_op dnq st op = .ok st1) :
    st1.measured_qubits_map = st.measured_qubits_map := by
  cases op <;> simp only [op_map_quiet] at hq <;>
    simp only [process_op] at h <;>
    (try split at h) <;> (try split at h) <;> (try split at h) <;> (try split at h) <;>
    (try simp_all) <;> (try (cases h; simp)) <;> (try simp_all)

theorem process_ops_map_quiet (dnq : Nat) (ops : List Operation) (st final : CCState)
    (hq : map_quiet ops = true) (h : process_ops dnq ops st = .ok final) :
    final.measured_qubits_map = st.measured_qubits_map := by
  induction ops generalizing st with
  | nil =>
    simp only [process_ops, List.foldlM_nil, pure, Except.pure, Except.ok.injEq] at h
    simp [h]
  | cons op rest ih =>
    simp only [map_quiet, List.all_cons, Bool.and_eq_true] at hq
    simp only [process_ops, List.foldlM_cons] at h
    obtain ⟨st1, hst1, hrest⟩ := except_bind_ok h
    have h1 := process_op_map_quiet dnq st op st1 hq.1 hst1
    have h2 := ih st1 (by simpa [map_quiet] using hq.2) hrest
    rw [h2, h1]

theorem process_op_set_ok (dnq n : Nat) (r : String) (st st1 : CCState)
    (h : process_op dnq st (.PragmaSetNumberOfMeasurements n r) = .ok st1) :
    ∃ len, (∃ x, alGet st.measured_qubits_map r = some (x, len))
      ∧ st1.measured_qubits_map = [(r, (st.measured_qubits, len))]
      ∧ st1.measured_qubits = st.measured_qubits := by
  simp only [process_op] at h
  by_cases hguard : st.number_measurements > 1 ∧ st.number_measurements ≠ n
  · simp [if_pos hguard] at h
  · rw [if_neg hguard] at h
    cases hget : alGet st.measured_qubits_map r with
    | none => rw [hget] at h; simp at h
    | some reg =>
      rw [hget] at h
      simp only [] at h
      by_cases hlen : st.measured_qubits.length > reg.2
      · rw [if_pos hlen] at h; simp at h
      · rw [if_neg hlen] at h
        cases h
        exact ⟨reg.2, ⟨reg.1, by simp [hget]⟩, rfl, rfl⟩

/-- C10 counterexample.  An output register declaration *after* the
`PragmaSetNumberOfMeasurements` re-inserts an entry, so the returned map has
two entries, not one. -/
theorem claim_C10_counterexample :
    (call_circuit [.DefinitionBit "ro" 1 true,
        .PragmaSetNumberOfMeasurements 2 "ro",
        .DefinitionBit "other" 1 true] 2 none 0).map
      (fun res => res.1.metadata) = .ok (some [("ro", ([], 1)), ("other", ([], 1))]) := by rfl

/-- C10 (corrected).  When a `PragmaSetNumberOfMeasurements` is processed
successfully, the `MeasuredQubitsMap` is reset at that point to the single
entry for its register, carrying the qubits measured so far (in call order)
and the register's declared length; if no later operation writes the map (no
output register declaration, individual measurement, repeated measurement or
further shot-count pragma), the map returned by `call_circuit` is exactly
that singleton.  Operations after the pragma *can* add entries back (see the
counterexample). -/
theorem claim_C10 (pre post : List Operation) (r : String) (n dnq idx : Nat)
    (nmi : Option Nat) (res : IqmCircuit × Nat)
    (hquiet : map_quiet post = true)
    (hok : call_circuit (pre ++ .PragmaSetNumberOfMeasurements n r :: post) dnq nmi idx
      = .ok res) :
    ∃ len, res.1.metadata = some [(r, (top_measured pre, len))] := by
  simp only [call_circuit] at hok
  obtain ⟨final, hfinal, hres⟩ := except_bind_ok hok
  simp only [pure, Except.pure, Except.ok.injEq] at hres
  simp only [process_ops, List.foldlM_append, List.foldlM_cons] at hfinal
  obtain ⟨st1, hst1, hcont⟩ := except_bind_ok hfinal
  obtain ⟨st2, hst2, hpost⟩ := except_bind_ok hcont
  obtain ⟨len, -, hmap2, -⟩ := process_op_set_ok dnq n r st1 st2 hst2
  have hmeas1 : st1.measured_qubits = top_measured pre := by
    have := process_ops_measured dnq pre initCCState st1 hst1
    simpa [initCCState] using this
  have hmapf : final.measured_qubits_map = st2.measured_qubits_map :=
    process_ops_map_quiet dnq post st2 final hquiet hpost
  refine ⟨len, ?_⟩
  rw [← hres]
  simp [hmapf, hmap2, hmeas1]

/-- C10 witness: a concrete circuit whose shot-count pragma is followed only
by a gate keeps exactly the one reset map entry. -/
theorem claim_C10_witness :
    map_quiet [Operation.RotateXY 1 (.Float 1) (.Float 1)] = true
  ∧ ∃ res, call_circuit
        ([Operation.DefinitionBit "ro" 2 true, Operation.MeasureQubit 0 "ro" 0] ++
          Operation.PragmaSetNumberOfMeasurements 5 "ro" ::
            [Operation.RotateXY 1 (.Float 1) (.Float 1)]) 6 none 0 = .ok res
      ∧ ∃ len, res.1.metadata = some
          [("ro", (top_measured [Operation.DefinitionBit "ro" 2 true,
                                 Operation.MeasureQubit 0 "ro" 0], len))] := by
  refine ⟨rfl, _, rfl, ?_⟩
  exact claim_C10 [Operation.DefinitionBit "ro" 2 true, Operation.MeasureQubit 0 "ro" 0]
    [Operation.RotateXY 1 (.Float 1) (.Float 1)] "ro" 5 6 0 none _ rfl rfl

/-! ## Claim C8: batch validation of output registers -/

theorem collect_fold_snd (circuit : List Operation) : ∀ (regs : List String) (b : Bool),
    (circuit.foldl collect_output_step (regs, b)).2 = (b || has_output_def circuit) := by
  induction circuit with
  | nil => intro regs b; simp [has_output_def]
  | cons op rest ih =>
    intro regs b
    cases op
    case DefinitionBit name len is_out =>
      cases is_out
      · simpa [has_output_def, collect_output_step] using ih regs b
      · have h := ih (hs_insert regs name) true
        simp [has_output_def, collect_output_step, List.foldl_cons, h]
    all_goals simpa [has_output_def, collect_output_step] using ih regs b

theorem validate_batch_fold_eq (circuit_batch : List (List Operation)) :
    ∀ (regs out : List String),
    circuit_batch.foldlM validate_batch_step regs = .ok out →
    (∀ c ∈ circuit_batch, has_output_def c = true)
    ∧ out = circuit_batch.foldl (fun regs circuit =>
        (circuit.foldl collect_output_step (regs, false)).1) regs := by
  induction circuit_batch with
  | nil =>
    intro regs out h
    simp only [List.foldlM_nil, pure, Except.pure, Except.ok.injEq] at h
    simp [h]
  | cons c cs ih =>
    intro regs out h
    simp only [List.foldlM_cons] at h
    obtain ⟨regs1, hstep, hrest⟩ := except_bind_ok h
    simp only [validate_batch_step] at hstep
    obtain ⟨u, hval, hcheck⟩ := except_bind_ok hstep
    have hsnd := collect_fold_snd c regs false
    by_cases hout : has_output_def c = true
    · rw [if_pos (by simp [hsnd, hout])] at hcheck
      simp only [pure, Except.pure, Except.ok.injEq] at hcheck
      obtain ⟨hall, heq⟩ := ih regs1 out hrest
      refine ⟨?_, ?_⟩
      · intro x hx
        rcases List.mem_cons.mp hx with hx | hx
        · subst hx; exact hout
        · exact hall x hx
      · simp only [List.foldl_cons, heq, hcheck]
    · rw [if_neg (by simp [hsnd, hout])] at hcheck
      simp at hcheck

/-- C8 counterexample.  Two circuits both declare output register `"x"`, but
because the first also declares `"y"` the distinct-name count (2) still
reaches the batch size (2), so batch validation — and with it the whole local
phase of submission — succeeds. -/
theorem claim_C8_counterexample :
    validate_circuit_batch
      [[.DefinitionBit "x" 1 true, .DefinitionBit "y" 1 true,
        .RotateXY 0 (.Float 1) (.Float 1), .MeasureQubit 0 "x" 0],
       [.DefinitionBit "x" 1 true, .MeasureQubit 0 "x" 0]] = .ok ()
  ∧ (submit_circuit_batch_local
      [[.DefinitionBit "x" 1 true, .DefinitionBit "y" 1 true,
        .RotateXY 0 (.Float 1) (.Float 1), .MeasureQubit 0 "x" 0],
       [.DefinitionBit "x" 1 true, .MeasureQubit 0 "x" 0]] none).isOk = true := ⟨rfl, rfl⟩

/-- C8 (corrected).  If Deneb-backend batch validation succeeds, then every
circuit of the batch declares at least one output register and the number of
*distinct* output-register names collected across the batch is at least the
number of circuits (so a batch of single-output circuits with a shared name
fails, but an extra register in one circuit can mask a shared name, see the
counterexample).  Any batch failing validation makes the whole local phase of
submission fail, before the network request would be built. -/
theorem claim_C8 (circuit_batch : List (List Operation)) (nmi : Option Nat) :
    (validate_circuit_batch circuit_batch = .ok () →
      (∀ c ∈ circuit_batch, has_output_def c = true)
      ∧ circuit_batch.length ≤ (batch_output_registers circuit_batch).length)
  ∧ (validate_circuit_batch circuit_batch ≠ .ok () →
      ∀ req, submit_circuit_batch_local circuit_batch nmi ≠ .ok req) := by
  constructor
  · intro hok
    simp only [validate_circuit_batch] at hok
    obtain ⟨out, hfold, hcheck⟩ := except_bind_ok hok
    obtain ⟨hall, heq⟩ := validate_batch_fold_eq circuit_batch [] out hfold
    refine ⟨hall, ?_⟩
    by_cases hlt : out.length < circuit_batch.length
    · rw [if_pos hlt] at hcheck; simp at hcheck
    · rw [batch_output_registers, ← heq]; omega
  · intro hne req hok
    simp only [submit_circuit_batch_local] at hok
    obtain ⟨u, hval, -⟩ := except_bind_ok hok
    exact hne (by cases u; exact hval)

/-- C8 witness: a valid singleton batch satisfies the success-side facts, and
a batch containing an empty circuit fails validation and submission. -/
theorem claim_C8_witness :
    (validate_circuit_batch [[Operation.DefinitionBit "x" 1 true,
        Operation.MeasureQubit 0 "x" 0]] = .ok ()
      ∧ ((∀ c ∈ [[Operation.DefinitionBit "x" 1 true, Operation.MeasureQubit 0 "x" 0]],
            has_output_def c = true)
        ∧ (1 : Nat) ≤ (batch_output_registers [[Operation.DefinitionBit "x" 1 true,
            Operation.MeasureQubit 0 "x" 0]]).length))
  ∧ (validate_circuit_batch [([] : List Operation)] ≠ .ok ()
      ∧ ∀ req, submit_circuit_batch_local [([] : List Operation)] none ≠ .ok req) := by
  constructor
  · exact ⟨rfl, (claim_C8 [[Operation.DefinitionBit "x" 1 true,
      Operation.MeasureQubit 0 "x" 0]] none).1 rfl⟩
  · have hfail : (validate_circuit_batch [([] : List Operation)]).isOk = false := rfl
    have hne : validate_circuit_batch [([] : List Operation)] ≠ .ok () := by
      intro h
      rw [h] at hfail
      simp [Except.isOk, Except.toBool] at hfail
    exact ⟨hne, (claim_C8 [([] : List Operation)] none).2 hne⟩

/-! ## Claim C6: result/metadata register mismatches -/

theorem foldlM_never_ok {ε α β : Type} (f : β → α → Except ε β) (x : α)
    (hfail : ∀ b v, f b x ≠ .ok v) :
    ∀ (l : List α), x ∈ l → ∀ b v, List.foldlM f b l ≠ .ok v := by
  intro l
  induction l with
  | nil => intro hx; cases hx
  | cons y ys ih =>
    intro hx b v h
    simp only [List.foldlM_cons] at h
    obtain ⟨b1, hb1, hrest⟩ := except_bind_ok h
    rcases List.mem_cons.mp hx with hxy | hxy
    · subst hxy; exact hfail b b1 hb1
    · exact ih hxy b1 v hrest

theorem reassemble_entry_missing (m : MeasuredQubitsMap) (reg : String)
    (rows : List (List Nat)) (hmiss : alGet m reg = none) :
    ∀ b v, reassemble_entry m b (reg, rows) ≠ .ok v := by
  intro b v h
  simp [reassemble_entry, hmiss, bind, Except.bind] at h

theorem reassemble_entry_ok_shape (m : MeasuredQubitsMap)
    (b : List (String × BitOutputRegister)) (p : String × List (List Nat))
    (v : List (String × BitOutputRegister))
    (h : reassemble_entry m b p = .ok v) :
    ∃ filled, v = alInsert b p.1 filled := by
  obtain ⟨reg, rows⟩ := p
  simp only [reassemble_entry] at h
  cases hm : alGet m reg with
  | none => rw [hm] at h; simp [bind, Except.bind] at h
  | some mq =>
    rw [hm] at h
    simp only [bind, Except.bind, pure, Except.pure] at h
    cases hb : alGet b reg with
    | some _ => rw [hb] at h; simp at h
    | none =>
      rw [hb] at h
      cases hf : process_register_result mq.1 mq.2 rows with
      | error e => rw [hf] at h; simp at h
      | ok filled =>
        rw [hf] at h
        simp only [Except.ok.injEq] at h
        exact ⟨filled, h.symm⟩

theorem reassemble_inner_provenance (m : MeasuredQubitsMap) :
    ∀ (entries : CircuitResult) (acc out : List (String × BitOutputRegister)),
    List.foldlM (reassemble_entry m) acc entries = .ok out →
    ∀ reg v, alGet out reg = some v →
      alGet acc reg = some v ∨ ∃ rows, (reg, rows) ∈ entries := by
  intro entries
  induction entries with
  | nil =>
    intro acc out h reg v hget
    simp only [List.foldlM_nil, pure, Except.pure, Except.ok.injEq] at h
    exact Or.inl (h ▸ hget)
  | cons p ps ih =>
    intro acc out h reg v hget
    simp only [List.foldlM_cons] at h
    obtain ⟨acc1, hstep, hrest⟩ := except_bind_ok h
    obtain ⟨filled, hins⟩ := reassemble_entry_ok_shape m acc p acc1 hstep
    rcases ih acc1 out hrest reg v hget with hin | ⟨rows, hrows⟩
    · subst hins
      by_cases hpr : p.1 = reg
      · exact Or.inr ⟨p.2, by simpa [← hpr] using List.mem_cons_self p ps⟩
      · rw [alGet_alInsert_ne acc p.1 reg filled hpr] at hin
        exact Or.inl hin
    · exact Or.inr ⟨rows, List.mem_cons_of_mem p hrows⟩

theorem reassemble_outer_provenance (m : MeasuredQubitsMap) :
    ∀ (L : BatchResult) (acc out : List (String × BitOutputRegister)),
    List.foldlM (reassemble_circuit_result m) acc L = .ok out →
    ∀ reg v, alGet out reg = some v →
      alGet acc reg = some v ∨ ∃ r1 ∈ L, ∃ rows, (reg, rows) ∈ r1 := by
  intro L
  induction L with
  | nil =>
    intro acc out h reg v hget
    simp only [List.foldlM_nil, pure, Except.pure, Except.ok.injEq] at h
    exact Or.inl (h ▸ hget)
  | cons r1 rs ih =>
    intro acc out h reg v hget
    simp only [List.foldlM_cons] at h
    obtain ⟨acc1, hstep, hrest⟩ := except_bind_ok h
    rcases ih acc1 out hrest reg v hget with hin | ⟨r2, hr2, rows, hrows⟩
    · rcases reassemble_inner_provenance m r1 acc acc1 hstep reg v hin with hin2 | ⟨rows, hrows⟩
      · exact Or.inl hin2
      · exact Or.inr ⟨r1, List.mem_cons_self r1 rs, rows, hrows⟩
    · exact Or.inr ⟨r2, List.mem_cons_of_mem r1 hr2, rows, hrows⟩

/-- C6 counterexample.  A register (`"r1"`) present in the measured-qubits
map but absent from the result payload is silently dropped: reassembly
succeeds with no output registers, instead of erroring. -/
theorem claim_C6_counterexample :
    results_to_registers (mk_run_result [("r1", ([0], 1))] []) "id"
      = .ok { bit_registers := [], float_registers := [], complex_registers := [] } := by rfl

/-- C6 (corrected).  A register present in the server's result payload with
no entry in the recovered `MeasuredQubitsMap` always makes reassembly fail;
in the *converse* direction a map register for which the payload has no entry
is silently omitted from the output (every output register stems from a
payload entry), not surfaced as an error — see the counterexample. -/
theorem claim_C6 :
    (∀ (results : IqmRunResult) (id : String) (m : MeasuredQubitsMap)
        (L : BatchResult) (r1 : CircuitResult) (reg : String) (rows : List (List Nat)),
      get_measured_qubits_map results = .ok m →
      results.measurements = some L →
      r1 ∈ L → (reg, rows) ∈ r1 → alGet m reg = none →
      ∀ regs, results_to_registers results id ≠ .ok regs)
  ∧ (∀ (results : IqmRunResult) (id : String) (regs : Registers) (reg : String)
        (v : BitOutputRegister),
      results_to_registers results id = .ok regs →
      alGet regs.bit_registers reg = some v →
      ∃ L, results.measurements = some L ∧ ∃ r1 ∈ L, ∃ rows, (reg, rows) ∈ r1) := by
  constructor
  · intro results id m L r1 reg rows hget hmeas hr1 hentry hmiss regs hok
    simp only [results_to_registers, hget, hmeas] at hok
    simp only [bind, Except.bind, pure, Except.pure] at hok
    obtain ⟨bits, hbits, -⟩ := except_bind_ok hok
    have hinner : ∀ b v, reassemble_circuit_result m b r1 ≠ .ok v := by
      intro b v hv
      exact foldlM_never_ok (reassemble_entry m) (reg, rows)
        (reassemble_entry_missing m reg rows hmiss) r1 hentry b v hv
    exact foldlM_never_ok (reassemble_circuit_result m) r1 hinner L hr1 [] bits hbits
  · intro results id regs reg v hok hget
    simp only [results_to_registers] at hok
    obtain ⟨m, hm, hok1⟩ := except_bind_ok hok
    cases hmeas : results.measurements with
    | none =>
      rw [hmeas] at hok1
      simp [bind, Except.bind] at hok1
    | some L =>
      rw [hmeas] at hok1
      simp only [bind, Except.bind, pure, Except.pure] at hok1
      cases hbits : List.foldlM (reassemble_circuit_result m) [] L with
      | error e => rw [hbits] at hok1; simp at hok1
      | ok bits =>
        rw [hbits] at hok1
        simp only [Except.ok.injEq] at hok1
        have hregs : regs.bit_registers = bits := by rw [← hok1]
        rcases reassemble_outer_provenance m L [] bits hbits reg v (hregs ▸ hget)
          with hin | hfound
        · simp [alGet] at hin
        · exact ⟨L, rfl, hfound⟩

/-- C6 witness: the forward mismatch errors on a concrete payload, while a
concrete successful reassembly only contains payload-backed registers. -/
theorem claim_C6_witness :
    (∀ regs, results_to_registers
        (mk_run_result [("b", ([0], 1))] [("a", [[1]])]) "id" ≠ .ok regs)
  ∧ (∃ L, (mk_run_result [("a", ([0], 1))] [("a", [[1]])]).measurements = some L
      ∧ ∃ r1 ∈ L, ∃ rows, (("a" : String), rows) ∈ r1) := by
  constructor
  · exact claim_C6.1 (mk_run_result [("b", ([0], 1))] [("a", [[1]])]) "id"
      [("b", ([0], 1))] [[("a", [[1]])]] [("a", [[1]])] "a" [[1]]
      rfl rfl (by simp) (by simp) rfl
  · exact claim_C6.2 (mk_run_result [("a", ([0], 1))] [("a", [[1]])]) "id"
      { bit_registers := [("a", [[true]])], float_registers := [], complex_registers := [] }
      "a" [[true]] rfl rfl

/-! ## Claim C2: the reassembly round trip -/

theorem alGet_append_none {α : Type} (a b : List (String × α)) (k : String)
    (h : alGet a k = none) : alGet (a ++ b) k = alGet b k := by
  induction a with
  | nil => simp
  | cons p rest ih =>
    simp only [alGet_cons] at h ⊢
    by_cases hp : p.1 = k
    · simp [hp] at h
    · simp only [List.cons_append, alGet_cons, if_neg hp]
      exact ih (by simpa [hp] using h)

theorem alInsert_not_mem {α : Type} (m : List (String × α)) (k : String) (v : α)
    (h : alGet m k = none) : alInsert m k v = m ++ [(k, v)] := by
  induction m with
  | nil => simp [alInsert]
  | cons p rest ih =>
    simp only [alGet_cons] at h
    by_cases hp : p.1 = k
    · simp [hp] at h
    · simp [alInsert, hp, ih (by simpa [hp] using h)]

theorem foldl_set_length (l : List (Nat × Nat)) : ∀ (row : List Bool),
    (l.foldl (fun r p => r.set p.1 (xor (r.getD p.1 false) (p.2 != 0))) row).length
      = row.length := by
  induction l with
  | nil => intro row; rfl
  | cons p rest ih =>
    intro row
    rw [List.foldl_cons, ih]
    simp [List.length_set]

theorem write_shot_length (ms os : List Nat) (row : List Bool) :
    (write_shot ms os row).length = row.length := by
  rw [write_shot]
  exact foldl_set_length (List.zip ms os) row

theorem zip_any_iff (q : Nat) : ∀ (ms os : List Nat), ms.length ≤ os.length →
    (((List.zip ms os).any (fun p => p.1 == q && p.2 != 0)) = true
      ↔ ∃ j : Nat, ms[j]? = some q ∧ ((os[j]?).getD 0 ≠ 0)) := by
  intro ms
  induction ms with
  | nil => intro os _; simp
  | cons m ms2 ih =>
    intro os hlen
    cases os with
    | nil => simp at hlen
    | cons o os2 =>
      simp only [List.zip_cons_cons, List.any_cons, Bool.or_eq_true, Bool.and_eq_true,
        beq_iff_eq, bne_iff_ne]
      rw [ih os2 (by simpa using hlen)]
      constructor
      · rintro (⟨hm, ho⟩ | ⟨j, hj, ho⟩)
        · exact ⟨0, by simp [hm], by simpa using ho⟩
        · exact ⟨j + 1, by simpa using hj, by simpa using ho⟩
      · rintro ⟨j, hj, ho⟩
        cases j with
        | zero => exact Or.inl ⟨by simpa using hj, by simpa using ho⟩
        | succ j2 => exact Or.inr ⟨j2, by simpa using hj, by simpa using ho⟩

theorem write_shot_spec (ms : List Nat) : ∀ (os : List Nat) (row : List Bool),
    ms.Nodup → (∀ x ∈ ms, x < row.length) →
    ∀ q, q < row.length →
      (write_shot ms os row)[q]? = some (xor (row.getD q false)
        ((List.zip ms os).any (fun p => p.1 == q && p.2 != 0))) := by
  induction ms with
  | nil =>
    intro os row _ _ q hq
    simp only [write_shot, List.zip_nil_left, List.foldl_nil, List.any_nil]
    simp [List.getElem?_eq_getElem hq, List.getD_eq_getElem?_getD]
  | cons m ms2 ih =>
    intro os row hnd hbound q hq
    cases os with
    | nil =>
      simp only [write_shot, List.zip_nil_right, List.foldl_nil, List.any_nil]
      simp [List.getElem?_eq_getElem hq, List.getD_eq_getElem?_getD]
    | cons o os2 =>
      have hm : m < row.length := hbound m (List.mem_cons_self m ms2)
      have hstep : write_shot (m :: ms2) (o :: os2) row
          = write_shot ms2 os2 (row.set m (xor (row.getD m false) (o != 0))) := by
        simp [write_shot, List.zip_cons_cons, List.foldl_cons]
      rw [hstep]
      have hnd2 := (List.nodup_cons.mp hnd).2
      have hnm : m ∉ ms2 := (List.nodup_cons.mp hnd).1
      have hbound2 : ∀ x ∈ ms2, x < (row.set m (xor (row.getD m false) (o != 0))).length := by
        intro x hx
        simpa [List.length_set] using hbound x (List.mem_cons_of_mem m hx)
      have hq2 : q < (row.set m (xor (row.getD m false) (o != 0))).length := by
        simpa [List.length_set]
      have hih := ih os2 (row.set m (xor (row.getD m false) (o != 0))) hnd2 hbound2 q hq2
      rw [hih]
      by_cases hqm : q = m
      · subst hqm
        have hrow : (row.set q (xor (row.getD q false) (o != 0))).getD q false
            = xor (row.getD q false) (o != 0) := by
          simp [List.getD_eq_getElem?_getD, List.getElem?_set_self hq]
        have hany2 : (List.zip ms2 os2).any (fun p => p.1 == q && p.2 != 0) = false := by
          rw [List.any_eq_false]
          intro p hp
          have hpm : p.1 ∈ ms2 := (List.of_mem_zip hp).1
          have hne : p.1 ≠ q := fun he => hnm (he ▸ hpm)
          simp [hne]
        rw [hrow]
        simp [List.zip_cons_cons, List.any_cons, hany2, Bool.xor_assoc]
      · have hrow : (row.set m (xor (row.getD m false) (o != 0))).getD q false
            = row.getD q false := by
          simp [List.getD_eq_getElem?_getD, List.getElem?_set_ne (by omega : m ≠ q)]
        have hmq : (m == q) = false := by simp [hqm]; omega
        rw [hrow]
        simp [List.zip_cons_cons, List.any_cons, hmq]

theorem process_register_result_ok (mq : List Nat) (len : Nat) (rows : List (List Nat))
    (h1 : ∀ q ∈ mq, q < len) (h2 : ∀ row ∈ rows, mq.length ≤ row.length) :
    process_register_result mq len rows
      = .ok (rows.map (fun os => write_shot mq os (List.replicate len false))) := by
  simp only [process_register_result]
  rw [if_neg]
  simp only [List.any_eq_true, not_exists, not_and, Bool.not_eq_true]
  intro row hrow
  have ha : decide (row.length < mq.length) = false := by
    simp [Nat.not_lt.mpr (h2 row hrow)]
  have hb : (mq.any fun qubit => decide (len ≤ qubit)) = false := by
    simp only [List.any_eq_false]
    intro q hq
    simp [Nat.not_le.mpr (h1 q hq)]
  simp [ha, hb]

theorem merge_fold_nodup (tmp : MeasuredQubitsMap) : ∀ (acc : MeasuredQubitsMap),
    (tmp.map Prod.fst).Nodup → (∀ p ∈ tmp, alGet acc p.1 = none) →
    List.foldlM merge_metadata_entry acc tmp = .ok (acc ++ tmp) := by
  induction tmp with
  | nil => intro acc _ _; simp [pure, Except.pure]
  | cons p rest ih =>
    intro acc hnd hdisj
    have hpacc : alGet acc p.1 = none := hdisj p (List.mem_cons_self p rest)
    simp only [List.foldlM_cons, merge_metadata_entry, hpacc, bind, Except.bind, pure,
      Except.pure]
    rw [alInsert_not_mem acc p.1 p.2 hpacc]
    rw [List.map_cons] at hnd
    have hnd2 : (rest.map Prod.fst).Nodup := (List.nodup_cons.mp hnd).2
    have hphd : p.1 ∉ rest.map Prod.fst := (List.nodup_cons.mp hnd).1
    have hdisj2 : ∀ q ∈ rest, alGet (acc ++ [(p.1, p.2)]) q.1 = none := by
      intro q hq
      rw [alGet_append_none acc [(p.1, p.2)] q.1 (hdisj q (List.mem_cons_of_mem p hq))]
      have : p.1 ≠ q.1 := by
        intro he
        exact hphd (he ▸ List.mem_map_of_mem Prod.fst hq)
      simp [alGet_cons, this]
    rw [ih (acc ++ [(p.1, p.2)]) hnd2 hdisj2]
    simp

theorem get_map_mk_run_result (m : MeasuredQubitsMap) (payload : CircuitResult)
    (hm : (m.map Prod.fst).Nodup) :
    get_measured_qubits_map (mk_run_result m payload) = .ok m := by
  simp only [get_measured_qubits_map, mk_run_result, List.foldlM_cons, List.foldlM_nil,
    merge_circuit_metadata, bind, Except.bind, pure, Except.pure]
  rw [merge_fold_nodup m [] hm (fun p _ => rfl)]
  simp [pure, Except.pure]

theorem reassemble_inner_full (m : MeasuredQubitsMap) : ∀ (entries : CircuitResult)
    (acc : List (String × BitOutputRegister)),
    (∀ reg rows, (reg, rows) ∈ entries → alGet acc reg = none) →
    (∀ reg rows, (reg, rows) ∈ entries → ∃ mq len,
        alGet m reg = some (mq, len) ∧ (∀ q ∈ mq, q < len) ∧
        ∀ row ∈ rows, mq.length ≤ row.length) →
    (entries.map Prod.fst).Nodup →
    List.foldlM (reassemble_entry m) acc entries
      = .ok (acc ++ entries.map (fun p => (p.1, reassemble_register m p.1 p.2))) := by
  intro entries
  induction entries with
  | nil => intro acc _ _ _; simp [pure, Except.pure]
  | cons p ps ih =>
    intro acc hdisj hwf hnd
    obtain ⟨reg, rows⟩ := p
    obtain ⟨mq, len, hget, hql, hrl⟩ := hwf reg rows (List.mem_cons_self _ _)
    have hacc : alGet acc reg = none := hdisj reg rows (List.mem_cons_self _ _)
    simp only [List.foldlM_cons, reassemble_entry, hget, hacc, bind, Except.bind, pure,
      Except.pure]
    rw [process_register_result_ok mq len rows hql hrl]
    simp only []
    rw [alInsert_not_mem acc reg _ hacc]
    rw [List.map_cons] at hnd
    have hnd2 : (ps.map Prod.fst).Nodup := (List.nodup_cons.mp hnd).2
    have hphd : reg ∉ ps.map Prod.fst := (List.nodup_cons.mp hnd).1
    have hdisj2 : ∀ reg2 rows2, (reg2, rows2) ∈ ps →
        alGet (acc ++ [(reg, rows.map (fun os => write_shot mq os
          (List.replicate len false)))]) reg2 = none := by
      intro reg2 rows2 hmem
      rw [alGet_append_none acc _ reg2 (hdisj reg2 rows2 (List.mem_cons_of_mem _ hmem))]
      have : reg ≠ reg2 := by
        intro he
        exact hphd (he ▸ List.mem_map_of_mem Prod.fst hmem)
      simp [alGet_cons, this]
    rw [ih (acc ++ [(reg, rows.map (fun os => write_shot mq os (List.replicate len false)))])
      hdisj2 (fun r2 rw2 hm2 => hwf r2 rw2 (List.mem_cons_of_mem _ hm2)) hnd2]
    simp only [List.map_cons, reassemble_register, hget]
    simp

/-- C2 counterexample.  With the measured-qubit list `[0, 0]` (qubit 0 at two
positions) and a shot reporting nonzero at both positions, the XOR write
leaves bit `[0][0]` at `false`, while the claim demands `true` (qubit 0
occurs at a position whose outcome is nonzero). -/
theorem claim_C2_counterexample :
    results_to_registers (mk_run_result [("r", ([0, 0], 1))] [("r", [[1, 1]])]) "id"
      = .ok { bit_registers := [("r", [[false]])]
            , float_registers := [], complex_registers := [] } := by rfl

/-- C2 (corrected).  For a well-formed measured-qubits map — pairwise-distinct
qubit indices per register, every index below the declared length, and every
shot row at least as long as the index list (otherwise the source panics on an
out-of-bounds index, and with duplicate indices the XOR write is a parity, see
the counterexample) — reassembly succeeds, produces one register per payload
entry of shape `[shots][declared length]`, and bit `[s][q]` is `true` iff `q`
occurs at some position `j` of the register's ordered measured-qubit list with
the outcome of shot `s` at position `j` nonzero. -/
theorem claim_C2 (m : MeasuredQubitsMap) (payload : CircuitResult) (id : String)
    (hm : (m.map Prod.fst).Nodup)
    (hp : (payload.map Prod.fst).Nodup)
    (hwf : ∀ reg rows, (reg, rows) ∈ payload → ∃ mq len,
        alGet m reg = some (mq, len) ∧ mq.Nodup ∧ (∀ q ∈ mq, q < len) ∧
        ∀ row ∈ rows, mq.length ≤ row.length) :
    results_to_registers (mk_run_result m payload) id
      = .ok { bit_registers := payload.map (fun p => (p.1, reassemble_register m p.1 p.2))
            , float_registers := [], complex_registers := [] }
  ∧ ∀ (reg : String) (rows : List (List Nat)) (mq : List Nat) (len : Nat),
      (reg, rows) ∈ payload → alGet m reg = some (mq, len) →
      (reassemble_register m reg rows).length = rows.length
      ∧ ∀ (s : Nat) (row : List Nat), rows[s]? = some row →
          ∃ orow : List Bool, (reassemble_register m reg rows)[s]? = some orow
            ∧ orow.length = len
            ∧ ∀ q, q < len →
                (orow[q]? = some true ↔ ∃ j : Nat, mq[j]? = some q ∧ ((row[j]?).getD 0 ≠ 0)) := by
  constructor
  · simp only [results_to_registers, get_map_mk_run_result m payload hm]
    simp only [mk_run_result, bind, Except.bind, pure, Except.pure, List.foldlM_cons,
      List.foldlM_nil, reassemble_circuit_result]
    rw [reassemble_inner_full m payload [] (fun _ _ _ => rfl)
      (fun reg rows hmem => by
        obtain ⟨mq, len, hget, -, hql, hrl⟩ := hwf reg rows hmem
        exact ⟨mq, len, hget, hql, hrl⟩) hp]
    simp [pure, Except.pure]
  · intro reg rows mq len hmem hget
    obtain ⟨mq2, len2, hget2, hnd, hql, hrl⟩ := hwf reg rows hmem
    rw [hget] at hget2
    cases hget2
    constructor
    · simp [reassemble_register, hget]
    · intro s row hrow
      have hrowmem : row ∈ rows := List.getElem?_mem hrow
      refine ⟨write_shot mq row (List.replicate len false), ?_, ?_, ?_⟩
      · simp [reassemble_register, hget, List.getElem?_map, hrow]
      · simp [write_shot_length, List.length_replicate]
      · intro q hq
        have hspec := write_shot_spec mq row (List.replicate len false) hnd
          (by simpa using hql) q (by simpa using hq)
        rw [hspec]
        have hz := zip_any_iff q mq row (hrl row hrowmem)
        simp only [Option.some.injEq]
        rw [show ((List.replicate len false).getD q false) = false by
          simp [List.getD_eq_getElem?_getD, List.getElem?_replicate, hq]]
        rw [Bool.false_xor]
        exact hz

/-- C2 witness: a concrete one-qubit register reassembles to the claimed
shape. -/
theorem claim_C2_witness :
    results_to_registers (mk_run_result [("a", ([0], 1))] [("a", [[1]])]) "id"
      = .ok { bit_registers := ([("a", [[1]])] : CircuitResult).map
                (fun p => (p.1, reassemble_register [("a", ([0], 1))] p.1 p.2))
            , float_registers := [], complex_registers := [] } := by
  exact (claim_C2 [("a", ([0], 1))] [("a", [[1]])] "id" (by simp) (by simp)
    (by
      intro reg rows hmem
      simp only [List.mem_singleton, Prod.mk.injEq] at hmem
      obtain ⟨h1, h2⟩ := hmem
      subst h1; subst h2
      exact ⟨[0], 1, rfl, by simp, by simp, by simp⟩)).1

/-! ## Claim C1: coalescing of individual measurements -/

theorem mem_map_convert (q : Nat) (ms : List Nat) :
    (_convert_qubit_name_qoqo_to_iqm q ∈ ms.map _convert_qubit_name_qoqo_to_iqm)
      ↔ q ∈ ms := by
  simp only [_convert_qubit_name_qoqo_to_iqm, List.mem_map, IqmQubitName.QB.injEq]
  constructor
  · rintro ⟨a, ha, he⟩
    have : a = q := by omega
    exact this ▸ ha
  · intro h; exact ⟨q, h, rfl⟩

theorem call_operation_not_measure (op : Operation) (ins : IqmInstruction)
    (h : call_operation op = .ok (some ins)) : is_measure_instr ins = false := by
  cases op <;>
    simp only [call_operation, bind, Except.bind, Except.mapError] at h <;>
    (try split at h) <;> (try split at h) <;>
    (try simp_all) <;>
    (try (cases h; rfl)) <;>
    (try simp_all [is_measure_instr])

theorem translate_body_not_measure (body : List Operation) :
    ∀ (l : List IqmInstruction), translate_body body = .ok l →
    ∀ ins ∈ l, is_measure_instr ins = false := by
  induction body with
  | nil =>
    intro l h ins hins
    simp only [translate_body, loop_body_pass, List.foldlM_nil, pure, Except.pure,
      Except.ok.injEq] at h
    subst h
    cases hins
  | cons op rest ih =>
    intro l h ins hins
    rw [show translate_body (op :: rest) = loop_body_pass (op :: rest) [] from rfl,
      loop_body_pass_cons] at h
    cases hco : call_operation op with
    | error e => rw [hco] at h; simp at h
    | ok o =>
      rw [hco] at h
      cases o with
      | none => exact ih l h ins hins
      | some ins2 =>
        simp only [List.nil_append] at h
        rw [loop_body_pass_eq rest [ins2]] at h
        cases htb : translate_body rest with
        | error e => rw [htb] at h; simp [Except.map] at h
        | ok l2 =>
          rw [htb] at h
          simp only [Except.map, Except.ok.injEq] at h
          subst h
          rcases List.mem_append.mp hins with hmem | hmem
          · rw [List.mem_singleton.mp hmem]
            exact call_operation_not_measure op ins2 hco
          · exact ih l2 htb ins hmem

theorem loop_reps_pass_filter (n : Nat) (body : List Operation)
    (acc cv : List IqmInstruction) (h : loop_reps_pass n body acc = .ok cv) :
    cv.filter is_measure_instr = acc.filter is_measure_instr := by
  cases n with
  | zero =>
    simp only [loop_reps_pass, Except.ok.injEq] at h
    rw [h]
  | succ k =>
    cases htb : translate_body body with
    | error e =>
      exfalso
      simp only [loop_reps_pass, loop_body_pass_eq, htb, Except.map, bind, Except.bind] at h
      exact Except.noConfusion h
    | ok l =>
      rw [loop_reps_pass_ok (k + 1) body acc l htb] at h
      simp only [Except.ok.injEq] at h
      subst h
      rw [List.filter_append]
      have hflat : (List.replicate (k + 1) l).flatten.filter is_measure_instr = [] := by
        rw [List.filter_eq_nil_iff]
        intro ins hins
        have hl : ins ∈ l := by
          obtain ⟨l2, hl2, hmem⟩ := List.mem_flatten.mp hins
          rw [List.eq_of_mem_replicate hl2] at hmem
          exact hmem
        simp [translate_body_not_measure body l htb ins hl]
      rw [hflat, List.append_nil]

theorem process_op_neutral_inv (dnq : Nat) (st st1 : CCState) (op : Operation)
    (hn : op_c1_neutral op = true) (h : process_op dnq st op = .ok st1) :
    st1.measured_qubits = st.measured_qubits
    ∧ st1.measured_qubits_map = st.measured_qubits_map
    ∧ st1.circuit_vec.filter is_measure_instr = st.circuit_vec.filter is_measure_instr := by
  cases op
  case DefinitionBit a b c => simp [op_c1_neutral] at hn
  case MeasureQubit a b c => simp [op_c1_neutral] at hn
  case PragmaSetNumberOfMeasurements a b => simp [op_c1_neutral] at hn
  case PragmaRepeatedMeasurement a b c => simp [op_c1_neutral] at hn
  case PragmaLoop reps body =>
    simp only [process_op] at h
    cases hf : reps.float with
    | error e => rw [hf] at h; simp at h
    | ok f =>
      rw [hf] at h
      simp only [] at h
      cases hlr : loop_reps_pass (rust_f64_as_i32 f).toNat body st.circuit_vec with
      | error e => rw [hlr] at h; simp at h
      | ok cv =>
        rw [hlr] at h
        simp only [Except.ok.injEq] at h
        subst h
        exact ⟨rfl, rfl, loop_reps_pass_filter _ body st.circuit_vec cv hlr⟩
  all_goals (
    simp only [process_op] at h
    split at h
    · simp at h
    · rename_i ins heq
      simp only [Except.ok.injEq] at h
      subst h
      refine ⟨rfl, rfl, ?_⟩
      rw [List.filter_append]
      simp [call_operation_not_measure _ _ heq]
    · simp only [Except.ok.injEq] at h
      subst h
      exact ⟨rfl, rfl, rfl⟩)

theorem find_measure_update_none (l : List IqmInstruction) (r : String) (q : Nat)
    (h : l.filter is_measure_instr = []) :
    find_measure_update l r q = .ok none := by
  induction l with
  | nil => rfl
  | cons i rest ih =>
    rw [List.filter_cons] at h
    cases hi : is_measure_instr i with
    | true => rw [hi] at h; simp at h
    | false =>
      rw [hi] at h
      simp only [Bool.false_eq_true, if_false] at h
      have hname : (i.name == "measure") = false := by simpa [is_measure_instr] using hi
      simp only [find_measure_update, hname, Bool.false_eq_true, if_false]
      rw [ih h]
      rfl

theorem find_measure_update_found (r : String) (ms : List Nat) (q : Nat)
    (hq : q ∉ ms) : ∀ (l : List IqmInstruction),
    l.filter is_measure_instr = [mk_measure r ms] →
    ∃ l2, find_measure_update l r q = .ok (some l2)
      ∧ l2.filter is_measure_instr = [mk_measure r (ms ++ [q])] := by
  intro l
  induction l with
  | nil => intro h; simp at h
  | cons i rest ih =>
    intro h
    rw [List.filter_cons] at h
    cases hi : is_measure_instr i with
    | false =>
      rw [hi] at h
      simp only [Bool.false_eq_true, if_false] at h
      obtain ⟨l2, hfind, hfilter⟩ := ih h
      have hname : (i.name == "measure") = false := by simpa [is_measure_instr] using hi
      refine ⟨i :: l2, ?_, ?_⟩
      · simp only [find_measure_update, hname, Bool.false_eq_true, if_false]
        rw [hfind]
        rfl
      · rw [List.filter_cons, hi]
        simpa using hfilter
    | true =>
      rw [hi] at h
      simp only [if_true, if_pos] at h
      simp only [List.cons.injEq] at h
      obtain ⟨hieq, hrest⟩ := h
      subst hieq
      have hnm2 : ¬ (_convert_qubit_name_qoqo_to_iqm q ∈
          ms.map _convert_qubit_name_qoqo_to_iqm) :=
        fun hmem => hq ((mem_map_convert q ms).mp hmem)
      refine ⟨{ mk_measure r ms with
          qubits := (mk_measure r ms).qubits ++ [_convert_qubit_name_qoqo_to_iqm q] } :: rest,
        ?_, ?_⟩
      · simp only [find_measure_update, mk_measure]
        rw [if_pos (by simp), show alGet [("key", IqmArg.str r)] "key" = some (.str r) from rfl]
        simp only []
        rw [if_pos (by simp)]
        rw [if_neg hnm2]
      · have hupd : is_measure_instr { mk_measure r ms with
            qubits := (mk_measure r ms).qubits ++ [_convert_qubit_name_qoqo_to_iqm q] }
              = true := rfl
        rw [List.filter_cons, hupd, if_pos rfl, hrest]
        simp [mk_measure]

theorem c1_post (dnq : Nat) (r : String) (len : Nat) : ∀ (ops : List Operation),
    only_single_measurements_to r ops = true →
    output_defs_named r ops = [] →
    ∀ (st final : CCState) (ms idxs : List Nat),
    (ms ++ top_measured ops).Nodup →
    st.measured_qubits = ms →
    alGet st.measured_qubits_map r = some (idxs, len) →
    st.circuit_vec.filter is_measure_instr = (if ms.isEmpty then [] else [mk_measure r ms]) →
    process_ops dnq ops st = .ok final →
    alGet final.measured_qubits_map r = some (idxs ++ top_readout_indices r ops, len)
    ∧ final.circuit_vec.filter is_measure_instr =
        (if (ms ++ top_measured ops).isEmpty then []
         else [mk_measure r (ms ++ top_measured ops)]) := by
  intro ops
  induction ops with
  | nil =>
    intro _ _ st final ms idxs hnd hms hmap hfil h
    simp only [process_ops, List.foldlM_nil, pure, Except.pure, Except.ok.injEq] at h
    subst h
    simp only [top_measured, top_readout_indices, List.filterMap_nil, List.append_nil]
    exact ⟨hmap, hfil⟩
  | cons op rest ih =>
    intro honly houts st final ms idxs hnd hms hmap hfil h
    simp only [process_ops, List.foldlM_cons] at h
    obtain ⟨st1, hst1, hrest⟩ := except_bind_ok h
    cases op
    case PragmaSetNumberOfMeasurements a b =>
      simp [only_single_measurements_to] at honly
    case PragmaRepeatedMeasurement a b c =>
      simp [only_single_measurements_to] at honly
    case DefinitionBit name len2 out =>
      have honly2 : only_single_measurements_to r rest = true := by
        simpa [only_single_measurements_to] using honly
      by_cases hro : name = r ∧ out = true
      · exfalso
        simp [output_defs_named, List.filterMap_cons, hro.1, hro.2] at houts
      · have houts2 : output_defs_named r rest = [] := by
          simpa [output_defs_named, List.filterMap_cons, hro] using houts
        simp only [process_op] at hst1
        by_cases hout : out = true
        · rw [if_pos hout] at hst1
          simp only [Except.ok.injEq] at hst1
          subst hst1
          have hner : name ≠ r := fun he => hro ⟨he, hout⟩
          have key := ih honly2 houts2
            { st with measured_qubits_map := alInsert st.measured_qubits_map name ([], len2) }
            final ms idxs
            (by simpa [top_measured] using hnd) hms
            (by
              show alGet (alInsert st.measured_qubits_map name ([], len2)) r = some (idxs, len)
              rw [alGet_alInsert_ne st.measured_qubits_map name r ([], len2) hner]
              exact hmap)
            hfil hrest
          simpa [top_measured, top_readout_indices] using key
        · rw [if_neg hout] at hst1
          simp only [Except.ok.injEq] at hst1
          subst hst1
          have key := ih honly2 houts2 _ final ms idxs
            (by simpa [top_measured] using hnd) hms hmap hfil hrest
          simpa [top_measured, top_readout_indices] using key
    case MeasureQubit q ro i =>
      have hro : ro = r := by
        have h2 := honly
        simp only [only_single_measurements_to, List.all_cons, Bool.and_eq_true,
          beq_iff_eq] at h2
        exact h2.1
      subst ro
      have honly2 : only_single_measurements_to r rest = true := by
        simp only [only_single_measurements_to, List.all_cons, Bool.and_eq_true] at honly
        exact honly.2
      have houts2 : output_defs_named r rest = [] := by
        simpa [output_defs_named, List.filterMap_cons] using houts
      have htm : top_measured (Operation.MeasureQubit q r i :: rest) = q :: top_measured rest := by
        simp [top_measured, List.filterMap_cons]
      have htr : top_readout_indices r (Operation.MeasureQubit q r i :: rest)
          = i :: top_readout_indices r rest := by
        simp [top_readout_indices, List.filterMap_cons]
      rw [htm] at hnd
      have hnd2 : ((ms ++ [q]) ++ top_measured rest).Nodup := by
        rw [← List.append_cons]
        exact hnd
      have hqnotin : q ∉ ms := by
        rw [List.nodup_append] at hnd
        exact fun hin => hnd.2.2 hin (List.mem_cons_self q _)
      simp only [process_op] at hst1
      rw [hmap] at hst1
      simp only [] at hst1
      by_cases hempty : ms = []
      · have hfil2 : st.circuit_vec.filter is_measure_instr = [] := by
          rw [hfil, hempty]
          simp
        rw [find_measure_update_none st.circuit_vec r q hfil2] at hst1
        simp only [Except.ok.injEq] at hst1
        subst hst1
        have key := ih honly2 houts2 _ final (ms ++ [q]) (idxs ++ [i]) hnd2
          (by simp [hms])
          (by
            simp only []
            rw [alGet_alUpdate_self st.measured_qubits_map r _, hmap]
            rfl)
          (by
            simp only []
            rw [List.filter_append, hfil2, hempty]
            simp [mk_measure, is_measure_instr, _convert_qubit_name_qoqo_to_iqm])
          hrest
        rw [htm, htr]
        constructor
        · rw [key.1]
          simp
        · rw [key.2]
          simp
      · have hfil2 : st.circuit_vec.filter is_measure_instr = [mk_measure r ms] := by
          rw [hfil]
          simp [hempty]
        obtain ⟨l2, hfind, hfl2⟩ := find_measure_update_found r ms q hqnotin st.circuit_vec hfil2
        rw [hfind] at hst1
        simp only [Except.ok.injEq] at hst1
        subst hst1
        have key := ih honly2 houts2 _ final (ms ++ [q]) (idxs ++ [i]) hnd2
          (by simp [hms])
          (by
            simp only []
            rw [alGet_alUpdate_self st.measured_qubits_map r _, hmap]
            rfl)
          (by
            simp only []
            rw [hfl2]
            simp)
          hrest
        rw [htm, htr]
        constructor
        · rw [key.1]
          simp
        · rw [key.2]
          simp
    all_goals (
      obtain ⟨he1, he2, he3⟩ := process_op_neutral_inv dnq st st1 _ (by rfl) hst1
      have honly2 : only_single_measurements_to r rest = true := by
        simpa [only_single_measurements_to] using honly
      have houts3 : output_defs_named r rest = [] := by
        simpa [output_defs_named] using houts
      have key := ih honly2 houts3 st1 final ms idxs
        (by simpa [top_measured] using hnd)
        (by rw [he1, hms])
        (by rw [he2]; exact hmap)
        (by rw [he3]; exact hfil)
        hrest
      simpa [top_measured, top_readout_indices] using key)

theorem c1_pre (dnq : Nat) (r : String) (len : Nat) : ∀ (ops : List Operation),
    only_single_measurements_to r ops = true →
    output_defs_named r ops = [len] →
    ∀ (st final : CCState),
    (top_measured ops).Nodup →
    st.measured_qubits = [] →
    alGet st.measured_qubits_map r = none →
    st.circuit_vec.filter is_measure_instr = [] →
    process_ops dnq ops st = .ok final →
    alGet final.measured_qubits_map r = some (top_readout_indices r ops, len)
    ∧ final.circuit_vec.filter is_measure_instr =
        (if (top_measured ops).isEmpty then [] else [mk_measure r (top_measured ops)]) := by
  intro ops
  induction ops with
  | nil =>
    intro _ houts st final _ _ _ _ _
    simp [output_defs_named] at houts
  | cons op rest ih =>
    intro honly houts st final hnd hms hmap hfil h
    simp only [process_ops, List.foldlM_cons] at h
    obtain ⟨st1, hst1, hrest⟩ := except_bind_ok h
    cases op
    case PragmaSetNumberOfMeasurements a b =>
      simp [only_single_measurements_to] at honly
    case PragmaRepeatedMeasurement a b c =>
      simp [only_single_measurements_to] at honly
    case DefinitionBit name len2 out =>
      have honly2 : only_single_measurements_to r rest = true := by
        simpa [only_single_measurements_to] using honly
      by_cases hro : name = r ∧ out = true
      · obtain ⟨hn, ho⟩ := hro
        subst name
        subst out
        have hlens : len2 = len ∧ output_defs_named r rest = [] := by
          simpa [output_defs_named, List.filterMap_cons] using houts
        obtain ⟨hlen, houts2⟩ := hlens
        subst len2
        simp only [process_op, if_true] at hst1
        simp only [Except.ok.injEq] at hst1
        subst hst1
        have key := c1_post dnq r len rest honly2 houts2
          { st with measured_qubits_map := alInsert st.measured_qubits_map r ([], len) }
          final [] []
          (by simpa [top_measured] using hnd)
          hms
          (by
            show alGet (alInsert st.measured_qubits_map r ([], len)) r = some ([], len)
            exact alGet_alInsert_self st.measured_qubits_map r ([], len))
          (by
            show st.circuit_vec.filter is_measure_instr = _
            rw [hfil]
            rfl)
          hrest
        simpa [top_measured, top_readout_indices] using key
      · have houts2 : output_defs_named r rest = [len] := by
          simpa [output_defs_named, List.filterMap_cons, hro] using houts
        simp only [process_op] at hst1
        by_cases hout : out = true
        · rw [if_pos hout] at hst1
          simp only [Except.ok.injEq] at hst1
          subst hst1
          have hner : name ≠ r := fun he => hro ⟨he, hout⟩
          have key := ih honly2 houts2
            { st with measured_qubits_map := alInsert st.measured_qubits_map name ([], len2) }
            final
            (by simpa [top_measured] using hnd) hms
            (by
              show alGet (alInsert st.measured_qubits_map name ([], len2)) r = none
              rw [alGet_alInsert_ne st.measured_qubits_map name r ([], len2) hner]
              exact hmap)
            hfil hrest
          simpa [top_measured, top_readout_indices] using key
        · rw [if_neg hout] at hst1
          simp only [Except.ok.injEq] at hst1
          subst hst1
          have key := ih honly2 houts2 st final
            (by simpa [top_measured] using hnd) hms hmap hfil hrest
          simpa [top_measured, top_readout_indices] using key
    case MeasureQubit q ro i =>
      exfalso
      have hro : ro = r := by
        have h2 := honly
        simp only [only_single_measurements_to, List.all_cons, Bool.and_eq_true,
          beq_iff_eq] at h2
        exact h2.1
      subst ro
      simp only [process_op] at hst1
      rw [hmap] at hst1
      exact Except.noConfusion hst1
    all_goals (
      obtain ⟨he1, he2, he3⟩ := process_op_neutral_inv dnq st st1 _ (by rfl) hst1
      have honly2 : only_single_measurements_to r rest = true := by
        simpa [only_single_measurements_to] using honly
      have houts3 : output_defs_named r rest = [len] := by
        simpa [output_defs_named] using houts
      have key := ih honly2 houts3 st1 final
        (by simpa [top_measured] using hnd)
        (by rw [he1, hms])
        (by rw [he2]; exact hmap)
        (by rw [he3]; exact hfil)
        hrest
      simpa [top_measured, top_readout_indices] using key)

/-- C1: for every circuit whose measurement operations are only `MeasureQubit`
operations on pairwise-distinct qubits, all writing to the one declared output
register `r` of length `len`, a successful `call_circuit` emits exactly one
vendor instruction named `"measure"`, its qubit-label list is the measured
qubits in call order, and the returned `MeasuredQubitsMap` maps `r` to the
readout indices in call order paired with the declared length. -/
theorem claim_C1 (ops : List Operation) (r : String) (len dnq idx : Nat)
    (nmi : Option Nat) (res : IqmCircuit × Nat)
    (honly : only_single_measurements_to r ops = true)
    (hnd : (top_measured ops).Nodup)
    (hdef : output_defs_named r ops = [len])
    (hne : top_measured ops ≠ [])
    (hok : call_circuit ops dnq nmi idx = .ok res) :
    res.1.instructions.filter is_measure_instr = [mk_measure r (top_measured ops)]
    ∧ ∃ mm : MeasuredQubitsMap, res.1.metadata = some mm
        ∧ alGet mm r = some (top_readout_indices r ops, len) := by
  simp only [call_circuit] at hok
  obtain ⟨final, hfinal, hres⟩ := except_bind_ok hok
  simp only [pure, Except.pure, Except.ok.injEq] at hres
  have key := c1_pre dnq r len ops honly hdef initCCState final hnd rfl rfl rfl hfinal
  have hie : (top_measured ops).isEmpty = false := by
    cases htm : top_measured ops with
    | nil => exact absurd htm hne
    | cons a l => rfl
  constructor
  · rw [← hres]
    show final.circuit_vec.filter is_measure_instr = _
    rw [key.2, hie]
    simp
  · refine ⟨final.measured_qubits_map, ?_, key.1⟩
    rw [← hres]

/-- C1 witness: the two-qubit Bell-style example — one output register of
length three, a gate, then two single-qubit measurements — yields one
coalesced measure instruction and the map entry with the readout indices. -/
theorem claim_C1_witness :
    only_single_measurements_to "ro" [Operation.DefinitionBit "ro" 3 true,
      Operation.ControlledPauliZ 0 1, Operation.MeasureQubit 0 "ro" 0,
      Operation.MeasureQubit 1 "ro" 1] = true
  ∧ (top_measured [Operation.DefinitionBit "ro" 3 true,
      Operation.ControlledPauliZ 0 1, Operation.MeasureQubit 0 "ro" 0,
      Operation.MeasureQubit 1 "ro" 1]).Nodup
  ∧ output_defs_named "ro" [Operation.DefinitionBit "ro" 3 true,
      Operation.ControlledPauliZ 0 1, Operation.MeasureQubit 0 "ro" 0,
      Operation.MeasureQubit 1 "ro" 1] = [3]
  ∧ top_measured [Operation.DefinitionBit "ro" 3 true,
      Operation.ControlledPauliZ 0 1, Operation.MeasureQubit 0 "ro" 0,
      Operation.MeasureQubit 1 "ro" 1] ≠ []
  ∧ ∃ res, call_circuit [Operation.DefinitionBit "ro" 3 true,
        Operation.ControlledPauliZ 0 1, Operation.MeasureQubit 0 "ro" 0,
        Operation.MeasureQubit 1 "ro" 1] 6 none 0 = .ok res
      ∧ res.1.instructions.filter is_measure_instr
          = [mk_measure "ro" (top_measured [Operation.DefinitionBit "ro" 3 true,
              Operation.ControlledPauliZ 0 1, Operation.MeasureQubit 0 "ro" 0,
              Operation.MeasureQubit 1 "ro" 1])]
      ∧ ∃ mm : MeasuredQubitsMap, res.1.metadata = some mm
          ∧ alGet mm "ro" = some (top_readout_indices "ro"
              [Operation.DefinitionBit "ro" 3 true,
               Operation.ControlledPauliZ 0 1, Operation.MeasureQubit 0 "ro" 0,
               Operation.MeasureQubit 1 "ro" 1], 3) := by
  refine ⟨rfl, by decide, rfl, by decide, _, rfl, ?_⟩
  exact claim_C1 [Operation.DefinitionBit "ro" 3 true,
    Operation.ControlledPauliZ 0 1, Operation.MeasureQubit 0 "ro" 0,
    Operation.MeasureQubit 1 "ro" 1] "ro" 3 6 0 none _ rfl (by decide) rfl
    (by decide) rfl

end RoqoqoIqm
